import Mathlib

/-!
Verification development for a TypeScript chess rules engine.

The definitions below are a shallow embedding of the engine's source:
boards are 8×8 grids of optional pieces (`List (List (Option Piece))`,
mirroring `(Piece | null)[][]`), coordinates use `Int` so that the
source's JavaScript number arithmetic (including negative intermediate
coordinates filtered by `isValidCoord`) is reproduced exactly, and the
source's in-place mutations are modelled by explicit state passing.
Where the source mutates a shared object we replay the assignment
sequence on immutable values, which yields the same final board because
the only aliases the engine ever observes are the board cells
themselves.
-/

set_option maxRecDepth 10000

/-- Piece kinds, from src/types/Piece.ts (`PieceType`). -/
inductive PieceType where
  | pawn | knight | bishop | rook | queen | king
deriving DecidableEq, Repr

/-- Piece colors, from src/types/Piece.ts (`PieceColor`). -/
inductive PieceColor where
  | white | black
deriving DecidableEq, Repr

/-- Pieces, from src/types/Piece.ts. The optional `hasMoved` flag is
modelled as a `Bool` (the engine only ever tests its truthiness, and
`undefined` is falsy). -/
structure Piece where
  type : PieceType
  color : PieceColor
  hasMoved : Bool
deriving DecidableEq, Repr

/-- Board coordinates, from src/types/Board.ts (`BoardCoord`).
Fields are `Int` to match JavaScript number arithmetic. -/
structure BoardCoord where
  row : Int
  col : Int
deriving DecidableEq, Repr

/-- Castling sides, from the `'kingside' | 'queenside'` union in
src/types/Move.ts. -/
inductive CastleSide where
  | kingside | queenside
deriving DecidableEq, Repr

/-- Moves, from src/types/Move.ts. Optional fields become `Option`;
the optional `isEnPassant` boolean becomes `Bool` (undefined is falsy). -/
structure Move where
  from_ : BoardCoord
  to_ : BoardCoord
  piece : Piece
  captured : Option Piece := none
  isEnPassant : Bool := false
  isCastling : Option CastleSide := none
  promotion : Option PieceType := none
deriving DecidableEq, Repr

/-- Board states, from src/types/Board.ts (`BoardState = (Piece|null)[][]`),
row 0 = White's back rank. -/
abbrev BoardState := List (List (Option Piece))

/-- Reading `board[r][c]`. All reads performed by the engine are
bounds-checked by `isValidCoord` (or by construction), so the
out-of-range default `none` is never observable on the modelled paths. -/
def boardGet (b : BoardState) (r c : Int) : Option Piece :=
  if 0 ≤ r ∧ 0 ≤ c then ((b.getD r.toNat []).getD c.toNat none) else none

/-- Writing `board[r][c] = p`. `List.set` leaves the list unchanged on an
out-of-range index, matching the fact that the engine only writes to
in-range cells of its 8×8 arrays. -/
def boardSet (b : BoardState) (r c : Int) (p : Option Piece) : BoardState :=
  if 0 ≤ r ∧ 0 ≤ c then b.set r.toNat ((b.getD r.toNat []).set c.toNat p) else b

/-- Convenience: read a cell at a coordinate. -/
def bAt (b : BoardState) (pos : BoardCoord) : Option Piece :=
  boardGet b pos.row pos.col

/-- Convenience: write a cell at a coordinate. -/
def bPut (b : BoardState) (pos : BoardCoord) (p : Option Piece) : BoardState :=
  boardSet b pos.row pos.col p

/-- Well-formedness of a board value: an 8×8 grid, as produced by
`BoardUtils.createInitialBoard` and preserved by every engine operation. -/
def BoardWF (b : BoardState) : Prop :=
  b.length = 8 ∧ ∀ row ∈ b, row.length = 8

instance : DecidablePred BoardWF := fun b => by
  unfold BoardWF; exact instDecidableAnd

/-- CoordinateUtils.isValidCoord, from src/utils/CoordinateUtils.ts. -/
def CoordinateUtils.isValidCoord (c : BoardCoord) : Bool :=
  0 ≤ c.row && c.row ≤ 7 && 0 ≤ c.col && c.col ≤ 7

/-- Opponent of a color (the `color === 'white' ? 'black' : 'white'`
pattern used throughout the source). -/
def PieceColor.other : PieceColor → PieceColor
  | .white => .black
  | .black => .white

/-! ### Piece validators (src/rules/validators) -/

/-- Fueled version of the `while` loop in `isPathClear`
(src/rules/validators/PieceValidator.ts). The loop walks from the square
after `from` towards `to` in unit steps; all call sites first establish
that `from` and `to` are aligned, so the walk reaches `to` in at most 8
steps and the fuel of 16 is never exhausted on a modelled path. -/
def isPathClearAux (b : BoardState) (tr tc dr dc : Int) : Int → Int → Nat → Bool
  | _, _, 0 => false
  | r, c, fuel + 1 =>
    if r = tr ∧ c = tc then true
    else if (boardGet b r c).isSome then false
    else isPathClearAux b tr tc dr dc (r + dr) (c + dc) fuel

/-- isPathClear, from src/rules/validators/PieceValidator.ts. -/
def isPathClear (b : BoardState) (from_ to_ : BoardCoord) : Bool :=
  let dRow := Int.sign (to_.row - from_.row)
  let dCol := Int.sign (to_.col - from_.col)
  isPathClearAux b to_.row to_.col dRow dCol (from_.row + dRow) (from_.col + dCol) 16

/-- PawnValidator.isValidMove, from the pawn validator module. -/
def PawnValidator.isValidMove (color : PieceColor) (b : BoardState)
    (from_ to_ : BoardCoord) : Bool :=
  let direction : Int := if color = .white then 1 else -1
  let startRow : Int := if color = .white then 1 else 6
  let rowDiff := to_.row - from_.row
  let colDiff := (to_.col - from_.col).natAbs
  let destinationPiece := bAt b to_
  (rowDiff = direction && colDiff = 0 && destinationPiece.isNone) ||
  (from_.row = startRow && rowDiff = 2 * direction && colDiff = 0 &&
    destinationPiece.isNone && (boardGet b (from_.row + direction) from_.col).isNone) ||
  (rowDiff = direction && colDiff = 1 &&
    match destinationPiece with
    | some dp => dp.color ≠ color
    | none => false)

/-- PawnValidator.getPotentialMoves, from the pawn validator module. -/
def PawnValidator.getPotentialMoves (color : PieceColor) (from_ : BoardCoord) :
    List BoardCoord :=
  let direction : Int := if color = .white then 1 else -1
  let startRow : Int := if color = .white then 1 else 6
  let oneStep : BoardCoord := ⟨from_.row + direction, from_.col⟩
  let l1 := if CoordinateUtils.isValidCoord oneStep then [oneStep] else []
  let l2 :=
    if from_.row = startRow then
      let twoSteps : BoardCoord := ⟨from_.row + 2 * direction, from_.col⟩
      if CoordinateUtils.isValidCoord twoSteps then [twoSteps] else []
    else []
  let captureLeft : BoardCoord := ⟨from_.row + direction, from_.col - 1⟩
  let l3 := if CoordinateUtils.isValidCoord captureLeft then [captureLeft] else []
  let captureRight : BoardCoord := ⟨from_.row + direction, from_.col + 1⟩
  let l4 := if CoordinateUtils.isValidCoord captureRight then [captureRight] else []
  l1 ++ l2 ++ l3 ++ l4

/-- KnightValidator.isValidMove, from src/rules/validators/KnightValidator.ts. -/
def KnightValidator.isValidMove (_b : BoardState) (from_ to_ : BoardCoord) : Bool :=
  let rowDiff := (to_.row - from_.row).natAbs
  let colDiff := (to_.col - from_.col).natAbs
  (rowDiff = 1 && colDiff = 2) || (rowDiff = 2 && colDiff = 1)

/-- KnightValidator.getPotentialMoves, offsets in source order. -/
def KnightValidator.getPotentialMoves (from_ : BoardCoord) : List BoardCoord :=
  let offsets : List (Int × Int) :=
    [(1, 2), (1, -2), (-1, 2), (-1, -2), (2, 1), (2, -1), (-2, 1), (-2, -1)]
  offsets.filterMap fun o =>
    let to_ : BoardCoord := ⟨from_.row + o.1, from_.col + o.2⟩
    if CoordinateUtils.isValidCoord to_ then some to_ else none

/-- Fueled version of the sliding-piece `while (isValidCoord) push` loop
shared by the bishop and rook generators. Starting from an on-board
square the loop runs at most 7 times, so fuel 16 is never exhausted. -/
def slideAux (dr dc : Int) : BoardCoord → Nat → List BoardCoord
  | _, 0 => []
  | cur, fuel + 1 =>
    if CoordinateUtils.isValidCoord cur then
      cur :: slideAux dr dc ⟨cur.row + dr, cur.col + dc⟩ fuel
    else []

/-- BishopValidator.getPotentialMoves, directions in source order. -/
def BishopValidator.getPotentialMoves (from_ : BoardCoord) : List BoardCoord :=
  let directions : List (Int × Int) := [(1, 1), (1, -1), (-1, 1), (-1, -1)]
  directions.flatMap fun d => slideAux d.1 d.2 ⟨from_.row + d.1, from_.col + d.2⟩ 16

/-- BishopValidator.isValidMove, from the bishop validator module. -/
def BishopValidator.isValidMove (b : BoardState) (from_ to_ : BoardCoord) : Bool :=
  if (to_.row - from_.row).natAbs ≠ (to_.col - from_.col).natAbs then false
  else isPathClear b from_ to_

/-- RookValidator.getPotentialMoves, directions in source order. -/
def RookValidator.getPotentialMoves (from_ : BoardCoord) : List BoardCoord :=
  let directions : List (Int × Int) := [(1, 0), (-1, 0), (0, 1), (0, -1)]
  directions.flatMap fun d => slideAux d.1 d.2 ⟨from_.row + d.1, from_.col + d.2⟩ 16

/-- RookValidator.isValidMove, from src (rook validator module). -/
def RookValidator.isValidMove (b : BoardState) (from_ to_ : BoardCoord) : Bool :=
  if from_.row ≠ to_.row ∧ from_.col ≠ to_.col then false
  else isPathClear b from_ to_

/-- QueenValidator.getPotentialMoves = bishop moves ++ rook moves. -/
def QueenValidator.getPotentialMoves (from_ : BoardCoord) : List BoardCoord :=
  BishopValidator.getPotentialMoves from_ ++ RookValidator.getPotentialMoves from_

/-- QueenValidator.isValidMove = bishop or rook move. -/
def QueenValidator.isValidMove (b : BoardState) (from_ to_ : BoardCoord) : Bool :=
  BishopValidator.isValidMove b from_ to_ || RookValidator.isValidMove b from_ to_

/-- KingValidator.getPotentialMoves: the dRow/dCol double loop in source
order, skipping (0,0). -/
def KingValidator.getPotentialMoves (from_ : BoardCoord) : List BoardCoord :=
  let offsets : List (Int × Int) :=
    [(-1, -1), (-1, 0), (-1, 1), (0, -1), (0, 1), (1, -1), (1, 0), (1, 1)]
  offsets.filterMap fun o =>
    let to_ : BoardCoord := ⟨from_.row + o.1, from_.col + o.2⟩
    if CoordinateUtils.isValidCoord to_ then some to_ else none

/-- KingValidator.isValidMove, from src/rules/validators/KingValidator.ts. -/
def KingValidator.isValidMove (_b : BoardState) (from_ to_ : BoardCoord) : Bool :=
  (to_.row - from_.row).natAbs ≤ 1 && (to_.col - from_.col).natAbs ≤ 1

/-- ValidatorFactory dispatch (`getValidatorCached` routes to the
singleton stateless validator for the piece's kind; pawns are
color-parameterized), from src/rules/validators/ValidatorFactory.ts. -/
def ValidatorFactory.isValidMove (p : Piece) (b : BoardState)
    (from_ to_ : BoardCoord) : Bool :=
  match p.type with
  | .pawn => PawnValidator.isValidMove p.color b from_ to_
  | .knight => KnightValidator.isValidMove b from_ to_
  | .bishop => BishopValidator.isValidMove b from_ to_
  | .rook => RookValidator.isValidMove b from_ to_
  | .queen => QueenValidator.isValidMove b from_ to_
  | .king => KingValidator.isValidMove b from_ to_

/-- ValidatorFactory dispatch for potential-move generation. -/
def ValidatorFactory.getPotentialMoves (p : Piece) (from_ : BoardCoord) :
    List BoardCoord :=
  match p.type with
  | .pawn => PawnValidator.getPotentialMoves p.color from_
  | .knight => KnightValidator.getPotentialMoves from_
  | .bishop => BishopValidator.getPotentialMoves from_
  | .rook => RookValidator.getPotentialMoves from_
  | .queen => QueenValidator.getPotentialMoves from_
  | .king => KingValidator.getPotentialMoves from_

/-! ### Special-move handlers (src/rules/special-moves) -/

/-- PromotionHandler.needsPromotion; the promotion ranks come from
GAME_CONFIG.promotion.ranks (white 7, black 0). -/
def PromotionHandler.needsPromotion (p : Piece) (to_ : BoardCoord) : Bool :=
  if p.type ≠ .pawn then false
  else to_.row = (if p.color = .white then (7 : Int) else 0)

/-- PromotionHandler.executePromotion. The source clones the board and
returns the clone with the pawn's kind replaced; on values the clone is
the board itself. -/
def PromotionHandler.executePromotion (b : BoardState) (position : BoardCoord)
    (newPieceType : PieceType) : BoardState :=
  match bAt b position with
  | some p => if p.type = .pawn then bPut b position (some { p with type := newPieceType }) else b
  | none => b

/-- PromotionHandler.unmakePromotion: mutates the piece at `position`
back to a pawn (any piece, no pawn check). -/
def PromotionHandler.unmakePromotion (b : BoardState) (position : BoardCoord) :
    BoardState :=
  match bAt b position with
  | some p => bPut b position (some { p with type := .pawn })
  | none => b

/-- CastlingHandler.executeCastling. The source deep-clones the board and
applies the king and rook relocations to the clone, returning it; on
values this is the input board with the same relocations applied. The
rook is read from the board after the king has been moved, exactly as in
the source. Castling column constants come from GAME_CONFIG.castling. -/
def CastlingHandler.executeCastling (b : BoardState) (m : Move) : BoardState :=
  match m.isCastling with
  | none => b
  | some side =>
    let row := m.from_.row
    let b1 :=
      match bAt b m.from_ with
      | some king => bPut (bPut b m.to_ (some { king with hasMoved := true })) m.from_ none
      | none => b
    let rookFromCol : Int := if side = .kingside then 7 else 0
    let rookToCol : Int := if side = .kingside then 5 else 3
    match boardGet b1 row rookFromCol with
    | some rook =>
      boardSet (boardSet b1 row rookToCol (some { rook with hasMoved := true })) row rookFromCol none
    | none => b1

/-- CastlingHandler.unmakeCastling: the source's in-place assignment
sequence replayed on values (hasMoved resets first, then the four cell
writes in source order). -/
def CastlingHandler.unmakeCastling (b : BoardState) (m : Move) : BoardState :=
  let isKingside := m.isCastling = some .kingside
  let row := m.from_.row
  let kingToCol := m.from_.col
  let rookFromCol : Int := if isKingside then 7 else 0
  let rookToCol : Int := if isKingside then 5 else 3
  match bAt b m.to_, boardGet b row rookToCol with
  | some king, some rook =>
    let king' := { king with hasMoved := false }
    let rook' := { rook with hasMoved := false }
    let b1 := bPut b m.to_ (some king')
    let b2 := boardSet b1 row rookToCol (some rook')
    let b3 := boardSet b2 row kingToCol (some king')
    let b4 := bPut b3 m.to_ none
    let b5 := boardSet b4 row rookFromCol (some rook')
    boardSet b5 row rookToCol none
  | _, _ => b

/-- The attack-check loop inside CastlingHandler.canCastle: walks the
king's start/transit/destination columns, querying the supplied
attack callback (which may carry state `σ`, e.g. a cache) and stopping
at the first attacked square. Returns (found-attacked?, final state). -/
def castleAttackLoop {σ : Type} (b : BoardState) (row : Int) (opp : PieceColor)
    (isAtt : BoardState → BoardCoord → PieceColor → σ → Bool × σ) :
    List Int → σ → Bool × σ
  | [], s => (false, s)
  | c :: rest, s =>
    let (att, s') := isAtt b ⟨row, c⟩ opp s
    if att then (true, s') else castleAttackLoop b row opp isAtt rest s'

/-- CastlingHandler.canCastle: eligibility checks in source order; the
result is the castling `Move` on success (`valid: true`). The attack
callback is state-threaded because Game passes a caching closure. -/
def CastlingHandler.canCastle {σ : Type} (b : BoardState) (king : Piece)
    (from_ to_ : BoardCoord)
    (isAtt : BoardState → BoardCoord → PieceColor → σ → Bool × σ) (s : σ) :
    Option Move × σ :=
  if king.hasMoved then (none, s)
  else
    let row := from_.row
    let isKingside := from_.col < to_.col
    let correctKingCol : Int := if isKingside then 6 else 2
    if ¬(to_.row = row ∧ to_.col = correctKingCol) then (none, s)
    else
      let rookCol : Int := if isKingside then 7 else 0
      match boardGet b row rookCol with
      | none => (none, s)
      | some rook =>
        if ¬(rook.type = .rook ∧ rook.color = king.color ∧ rook.hasMoved = false) then (none, s)
        else
          let pathCols : List Int := if isKingside then [5, 6] else [1, 2, 3]
          if pathCols.any (fun c => (boardGet b row c).isSome) then (none, s)
          else
            let opponentColor := king.color.other
            let squaresToCheck : List Int := if isKingside then [4, 5, 6] else [2, 3, 4]
            let (attacked, s') := castleAttackLoop b row opponentColor isAtt squaresToCheck s
            if attacked then (none, s')
            else
              (some { from_ := from_, to_ := ⟨row, correctKingCol⟩, piece := king,
                      isCastling := some (if isKingside then .kingside else .queenside) }, s')

/-- EnPassantHandler.isEnPassantMove: the source's early-return checks
as one conjunction. -/
def EnPassantHandler.isEnPassantMove (pawn : Piece) (b : BoardState)
    (from_ to_ : BoardCoord) (lastMove : Option Move) : Bool :=
  match lastMove with
  | none => false
  | some last =>
    last.piece.type = .pawn &&
    (last.to_.row - last.from_.row).natAbs = 2 &&
    from_.row = (if pawn.color = .white then (4 : Int) else 3) &&
    (to_.row - from_.row) = (if pawn.color = .white then (1 : Int) else -1) &&
    (to_.col - from_.col).natAbs = 1 &&
    (bAt b to_).isNone &&
    (last.to_.col = to_.col && last.to_.row = from_.row)

/-- EnPassantHandler.executeEnPassant: clone-and-modify in the source;
on values, the pawn relocation followed by the unconditional removal of
the square (from.row, to.col). -/
def EnPassantHandler.executeEnPassant (b : BoardState) (m : Move) : BoardState :=
  if ¬m.isEnPassant then b
  else
    let b1 :=
      match bAt b m.from_ with
      | some pawn => bPut (bPut b m.to_ (some { pawn with hasMoved := true })) m.from_ none
      | none => b
    boardSet b1 m.from_.row m.to_.col none

/-- EnPassantHandler.unmakeEnPassant: the source's in-place assignment
sequence replayed on values. -/
def EnPassantHandler.unmakeEnPassant (b : BoardState) (m : Move) : BoardState :=
  match bAt b m.to_ with
  | none => b
  | some movingPawn =>
    let mp := { movingPawn with hasMoved := m.piece.hasMoved }
    let b1 := bPut b m.to_ (some mp)
    let b2 := bPut b1 m.from_ (some mp)
    let b3 := bPut b2 m.to_ none
    boardSet b3 m.from_.row m.to_.col m.captured

/-! ### MoveExecutor (the make/unmake orchestrator) -/

/-- BoardUtils.cloneBoard: a deep copy; equal to the input as a value. -/
def BoardUtils.cloneBoard (b : BoardState) : BoardState :=
  b.map fun row => row.map fun p => p

/-- MoveExecutor._makeNormalMove: move the piece, clear the origin, set
hasMoved (assignment order as in the source). -/
def MoveExecutor.makeNormalMove (b : BoardState) (m : Move) : BoardState :=
  match bAt b m.from_ with
  | none => b
  | some piece => bPut (bPut b m.to_ (some { piece with hasMoved := true })) m.from_ none

/-- MoveExecutor._unmakeNormalMove: restore the prior hasMoved from the
move's snapshot, put the piece back, restore any captured piece. -/
def MoveExecutor.unmakeNormalMove (b : BoardState) (m : Move) : BoardState :=
  match bAt b m.to_ with
  | none => b
  | some movedPiece =>
    let mp := { movedPiece with hasMoved := m.piece.hasMoved }
    let b1 := bPut b m.to_ (some mp)
    let b2 := bPut b1 m.from_ (some mp)
    bPut b2 m.to_ m.captured

/-- MoveExecutor._makeMove. NOTE (faithful to the source): the castling,
en-passant and promotion branches call handler methods that CLONE the
board and return a new board; `_makeMove` ignores those return values,
so on those branches the board passed in is left unchanged. The
`_discarded` bindings record the ignored handler results. -/
def MoveExecutor.makeMove (b : BoardState) (m : Move) : BoardState :=
  let b1 :=
    if m.isCastling.isSome then
      let _discarded := CastlingHandler.executeCastling b m
      b
    else if m.isEnPassant then
      let _discarded := EnPassantHandler.executeEnPassant b m
      b
    else MoveExecutor.makeNormalMove b m
  if m.promotion.isSome then
    let _discarded := PromotionHandler.executePromotion b1 m.to_ (m.promotion.getD .queen)
    b1
  else b1

/-- MoveExecutor._unmakeMove: promotion unwound first, then the
branch-specific reversal. These reversal handlers DO mutate the board
they receive. -/
def MoveExecutor.unmakeMove (b : BoardState) (m : Move) : BoardState :=
  let b1 := if m.promotion.isSome then PromotionHandler.unmakePromotion b m.to_ else b
  if m.isCastling.isSome then CastlingHandler.unmakeCastling b1 m
  else if m.isEnPassant then EnPassantHandler.unmakeEnPassant b1 m
  else MoveExecutor.unmakeNormalMove b1 m

/-- MoveExecutor.executeMove (commit mode): clone, then `_makeMove` on
the clone. -/
def MoveExecutor.executeMove (b : BoardState) (m : Move) : BoardState :=
  MoveExecutor.makeMove (BoardUtils.cloneBoard b) m

/-- MoveExecutor.wouldLeaveKingInCheck (probe mode): make the move on
the board, query the attack callback on the mutated board at the king's
final position, then unmake. Returns (isCheck, board after unmake,
callback state). The callback is state-threaded because Game passes a
caching closure. -/
def MoveExecutor.wouldLeaveKingInCheck {σ : Type} (b : BoardState) (m : Move)
    (kingPos : BoardCoord)
    (isAtt : BoardState → BoardCoord → PieceColor → σ → Bool × σ) (s : σ) :
    Bool × BoardState × σ :=
  let b1 := MoveExecutor.makeMove b m
  let finalKingPos := if m.piece.type = .king then m.to_ else kingPos
  let opponentColor := m.piece.color.other
  let (isCheck, s') := isAtt b1 finalKingPos opponentColor s
  (isCheck, MoveExecutor.unmakeMove b1 m, s')

/-! ### GameState data (src/model/GameState.ts) -/

/-- Position-identity keys are strings in the source; modelled as char
lists (a string is its character sequence; all key operations are
construction by concatenation and equality comparison). -/
abbrev PosKey := List Char

/-- GameSnapshot, from src/model/GameState.ts. -/
structure GameSnapshot where
  board : BoardState
  currentTurn : PieceColor
  moveHistory : List Move
  lastMove : Option Move
  isCheck : Bool
  isCheckmate : Bool
  isStalemate : Bool
  isDraw : Bool
  whiteKingPos : BoardCoord
  blackKingPos : BoardCoord
  halfMoveClock : Nat
  positionHistory : List (PosKey × Nat)
deriving DecidableEq

/-- GameState, from src/model/GameState.ts. `positionHistory` is the
source's `Map<string, number>` as an association list (first match wins
on lookup, set replaces in place), `currentSnapshotIndex` is an `Int`
because it starts at -1. -/
structure GameState where
  currentTurn : PieceColor := .white
  moveHistory : List Move := []
  lastMove : Option Move := none
  whiteKingPos : BoardCoord := ⟨0, 4⟩
  blackKingPos : BoardCoord := ⟨7, 4⟩
  isCheck : Bool := false
  isCheckmate : Bool := false
  isStalemate : Bool := false
  isDraw : Bool := false
  allLegalMovesForCurrentTurn : List Move := []
  gameSnapshots : List GameSnapshot := []
  currentSnapshotIndex : Int := -1
  halfMoveClock : Nat := 0
  positionHistory : List (PosKey × Nat) := []
deriving DecidableEq

/-- Lookup in an association-list model of a JS `Map` (first match). -/
def mapGet {α β : Type} [DecidableEq α] (m : List (α × β)) (k : α) : Option β :=
  (m.find? (fun e => e.1 = k)).map (·.2)

/-- Update in an association-list model of a JS `Map`: replace the
binding if the key is present, else append. -/
def mapSet {α β : Type} [DecidableEq α] (m : List (α × β)) (k : α) (v : β) :
    List (α × β) :=
  match m with
  | [] => [(k, v)]
  | e :: rest => if e.1 = k then (k, v) :: rest else e :: mapSet rest k v

/-! ### Game: attack calculation and legal-move generation
(src/model/Game.ts) -/

/-- The row-major square scan `for r in 0..7, for c in 0..7` used by
`generateAllLegalMoves` and `_calculateIsSquareAttacked`. -/
def scanCoords : List BoardCoord :=
  (List.range 8).flatMap fun r => (List.range 8).map fun c => ⟨(r : Int), (c : Int)⟩

/-- The per-piece test inside Game._calculateIsSquareAttacked: pawns
use the direction-specific diagonal offsets, every other kind reuses
the validator geometry. -/
def Game.pieceAttacks (b : BoardState) (piece : Piece) (rc pos : BoardCoord)
    (color : PieceColor) : Bool :=
  if piece.color ≠ color then false
  else if piece.type = .pawn then
    let dir : Int := if color = .white then 1 else -1
    rc.row + dir = pos.row && (rc.col - 1 = pos.col || rc.col + 1 = pos.col)
  else ValidatorFactory.isValidMove piece b rc pos

/-- Game._calculateIsSquareAttacked: scan every square for pieces of
the attacking color and test each. -/
def Game.calculateIsSquareAttacked (b : BoardState) (pos : BoardCoord)
    (color : PieceColor) : Bool :=
  scanCoords.any fun rc =>
    match boardGet b rc.row rc.col with
    | none => false
    | some piece => Game.pieceAttacks b piece rc pos color

/-- The pass-scoped move-generation cache: the source keys it by the
string `"row,col:color"`, which encodes exactly the triple
(row, col, color); modelled as an association list over that triple.
Crucially, the key does NOT include any board identity. -/
abbrev MoveGenCache := List ((Int × Int × PieceColor) × Bool)

/-- The `isAttackedDuringSim` closure created in Game._validateMoveLite
and Game._generateSpecialMoves: consult the pass-scoped cache, else
compute and store. -/
def Game.isAttackedDuringSim (b : BoardState) (p : BoardCoord) (c : PieceColor)
    (cache : MoveGenCache) : Bool × MoveGenCache :=
  match mapGet cache (p.row, p.col, c) with
  | some hit => (hit, cache)
  | none =>
    let result := Game.calculateIsSquareAttacked b p c
    (result, mapSet cache (p.row, p.col, c) result)

/-- Game._validateMoveLite: own-color destination filter, move record
construction (piece snapshot, captured snapshot, speculative queen
promotion tag), then the probe-mode king-safety test. Returns the
validated move (if kept) together with the threaded board and cache. -/
def Game.validateMoveLite (piece : Piece) (b : BoardState)
    (from_ to_ : BoardCoord) (gs : GameState) (cache : MoveGenCache) :
    Option Move × BoardState × MoveGenCache :=
  let destinationPiece := bAt b to_
  if destinationPiece.isSome ∧ (destinationPiece.getD piece).color = piece.color then
    (none, b, cache)
  else
    let kingPos := if piece.color = .white then gs.whiteKingPos else gs.blackKingPos
    let move : Move :=
      { from_ := from_, to_ := to_, piece := piece, captured := destinationPiece,
        promotion := if PromotionHandler.needsPromotion piece to_ then some .queen else none }
    let (wouldBeInCheck, b', cache') :=
      MoveExecutor.wouldLeaveKingInCheck b move kingPos Game.isAttackedDuringSim cache
    if wouldBeInCheck then (none, b', cache') else (some move, b', cache')

/-- The inner loop of Game._generateMovesForPiece over the potential
destinations, threading the (mutated-and-restored) board and the cache. -/
def Game.pieceMoveLoop (piece : Piece) (from_ : BoardCoord) (gs : GameState) :
    BoardState → MoveGenCache → List BoardCoord → List Move × BoardState × MoveGenCache
  | b, cache, [] => ([], b, cache)
  | b, cache, to_ :: rest =>
    if ¬ ValidatorFactory.isValidMove piece b from_ to_ then
      Game.pieceMoveLoop piece from_ gs b cache rest
    else
      let (validated, b', cache') := Game.validateMoveLite piece b from_ to_ gs cache
      let (moves, b'', cache'') := Game.pieceMoveLoop piece from_ gs b' cache' rest
      (match validated with
       | some m => m :: moves
       | none => moves, b'', cache'')

/-- Game._generateMovesForPiece. -/
def Game.generateMovesForPiece (b : BoardState) (piece : Piece)
    (from_ : BoardCoord) (gs : GameState) (cache : MoveGenCache) :
    List Move × BoardState × MoveGenCache :=
  Game.pieceMoveLoop piece from_ gs b cache (ValidatorFactory.getPotentialMoves piece from_)

/-- The outer square scan of Game.generateAllLegalMoves. -/
def Game.genLoop (color : PieceColor) (gs : GameState) :
    BoardState → MoveGenCache → List BoardCoord → List Move × BoardState × MoveGenCache
  | b, cache, [] => ([], b, cache)
  | b, cache, rc :: rest =>
    match boardGet b rc.row rc.col with
    | some piece =>
      if piece.color = color then
        let (ms, b', cache') := Game.generateMovesForPiece b piece rc gs cache
        let (rest', b'', cache'') := Game.genLoop color gs b' cache' rest
        (ms ++ rest', b'', cache'')
      else Game.genLoop color gs b cache rest
    | none => Game.genLoop color gs b cache rest

/-- The en-passant scan over the two squares adjacent to the
double-advanced pawn, from Game._generateSpecialMoves (note the
short-circuit: the king-safety probe runs only when isEnPassantMove
already holds). -/
def Game.epLoop (color : PieceColor) (victimPos : BoardCoord) (last : Move)
    (kingPos : BoardCoord) :
    BoardState → MoveGenCache → List BoardCoord → List Move × BoardState × MoveGenCache
  | b, cache, [] => ([], b, cache)
  | b, cache, from_ :: rest =>
    match bAt b from_ with
    | none => Game.epLoop color victimPos last kingPos b cache rest
    | some attacker =>
      if ¬(attacker.type = .pawn ∧ attacker.color = color) then
        Game.epLoop color victimPos last kingPos b cache rest
      else
        let dir : Int := if color = .white then 1 else -1
        let to_ : BoardCoord := ⟨from_.row + dir, victimPos.col⟩
        let epMove : Move :=
          { from_ := from_, to_ := to_, piece := attacker, isEnPassant := true,
            captured := some last.piece }
        if EnPassantHandler.isEnPassantMove attacker b from_ to_ (some last) then
          let (inCheck, b', cache') :=
            MoveExecutor.wouldLeaveKingInCheck b epMove kingPos Game.isAttackedDuringSim cache
          let (moves, b'', cache'') := Game.epLoop color victimPos last kingPos b' cache' rest
          (if inCheck then moves else epMove :: moves, b'', cache'')
        else Game.epLoop color victimPos last kingPos b cache rest

/-- Game._generateSpecialMoves: castling (two canCastle queries feeding
the same pass cache), then en passant against the immediately preceding
move. -/
def Game.generateSpecialMoves (b : BoardState) (color : PieceColor)
    (gs : GameState) (cache : MoveGenCache) :
    List Move × BoardState × MoveGenCache :=
  let kingPos := if color = .white then gs.whiteKingPos else gs.blackKingPos
  let king := bAt b kingPos
  let (castleMoves, cache1) : List Move × MoveGenCache :=
    match king with
    | some k =>
      if k.type = .king then
        let (ks, cA) :=
          CastlingHandler.canCastle b k kingPos ⟨kingPos.row, 6⟩ Game.isAttackedDuringSim cache
        let (qs, cB) :=
          CastlingHandler.canCastle b k kingPos ⟨kingPos.row, 2⟩ Game.isAttackedDuringSim cA
        (ks.toList ++ qs.toList, cB)
      else ([], cache)
    | none => ([], cache)
  match gs.lastMove with
  | some last =>
    if last.piece.type = PieceType.pawn ∧ (last.to_.row - last.from_.row).natAbs = 2 then
      let victimPos := last.to_
      let adjacent : List BoardCoord :=
        [⟨victimPos.row, victimPos.col - 1⟩, ⟨victimPos.row, victimPos.col + 1⟩]
      let (epMoves, b', cache') := Game.epLoop color victimPos last kingPos b cache1 adjacent
      (castleMoves ++ epMoves, b', cache')
    else (castleMoves, b, cache1)
  | none => (castleMoves, b, cache1)

/-- Game.generateAllLegalMoves: fresh pass-scoped cache, square scan,
then special moves; returns the move list. -/
def Game.generateAllLegalMoves (b : BoardState) (color : PieceColor)
    (gs : GameState) : List Move :=
  let moveGenCache : MoveGenCache := []
  let (legalMoves, b1, cache1) := Game.genLoop color gs b moveGenCache scanCoords
  let (specialMoves, _, _) := Game.generateSpecialMoves b1 color gs cache1
  legalMoves ++ specialMoves

/-! ### BoardUtils (src/utils/BoardUtils.ts) and board setup -/

/-- BOARD_CONFIG.initialPosition.pieceOrder. -/
def BOARD_CONFIG.pieceOrder : List PieceType :=
  [.rook, .knight, .bishop, .queen, .king, .bishop, .knight, .rook]

/-- BoardUtils.createInitialBoard: pawns on ranks 1/6, pieces on ranks
0/7 in BOARD_CONFIG order, every piece with hasMoved = false. -/
def BoardUtils.createInitialBoard : BoardState :=
  let emptyRow : List (Option Piece) := List.replicate 8 none
  let pawnRow (c : PieceColor) : List (Option Piece) :=
    List.replicate 8 (some ⟨.pawn, c, false⟩)
  let pieceRow (c : PieceColor) : List (Option Piece) :=
    BOARD_CONFIG.pieceOrder.map fun t => some ⟨t, c, false⟩
  [pieceRow .white, pawnRow .white, emptyRow, emptyRow, emptyRow, emptyRow,
   pawnRow .black, pieceRow .black]

/-- BoardUtils.getPiecesByColor: row-major scan collecting the pieces
of one color with their positions. -/
def BoardUtils.getPiecesByColor (b : BoardState) (color : PieceColor) :
    List (Piece × BoardCoord) :=
  scanCoords.filterMap fun rc =>
    match boardGet b rc.row rc.col with
    | some p => if p.color = color then some (p, rc) else none
    | none => none

/-! ### FenGenerator (src/services/FenGenerator.ts), keys as char lists -/

/-- Decimal digit character. -/
def digitChar (n : Nat) : Char := Char.ofNat (48 + n)

/-- Fueled decimal digits: with fuel at least the digit count this is
ordinary base-10 printing (fuel keeps the recursion structural so that
proofs can evaluate it). -/
def natCharsAux : Nat → Nat → List Char
  | 0, _ => []
  | fuel + 1, n =>
    if n < 10 then [digitChar n]
    else natCharsAux fuel (n / 10) ++ [digitChar (n % 10)]

/-- Decimal representation of a natural number, as JavaScript string
interpolation produces it. -/
def natChars (n : Nat) : List Char := natCharsAux (n + 1) n

/-- Decimal representation of an integer. -/
def intChars (n : Int) : List Char :=
  if n < 0 then '-' :: natChars n.natAbs else natChars n.toNat

/-- Uppercase FEN letter of a piece kind (`type.charAt(0).toUpperCase()`,
with the knight special-cased to N). -/
def pieceCharUpper : PieceType → Char
  | .pawn => 'P' | .knight => 'N' | .bishop => 'B'
  | .rook => 'R' | .queen => 'Q' | .king => 'K'

/-- Lowercase FEN letter of a piece kind. -/
def pieceCharLower : PieceType → Char
  | .pawn => 'p' | .knight => 'n' | .bishop => 'b'
  | .rook => 'r' | .queen => 'q' | .king => 'k'

/-- FEN letter of a piece: uppercase for white, lowercase for black. -/
def pieceChar (p : Piece) : Char :=
  if p.color = .white then pieceCharUpper p.type else pieceCharLower p.type

/-- The per-row FEN builder: the source's running `emptySquares` counter
threaded through the cells of one row. -/
def rowFenAux : List (Option Piece) → Nat → List Char
  | [], e => if e > 0 then natChars e else []
  | none :: rest, e => rowFenAux rest (e + 1)
  | some p :: rest, e =>
    (if e > 0 then natChars e else []) ++ pieceChar p :: rowFenAux rest 0

/-- A row as the source reads it: `board[row][col]` for col 0..7, with
out-of-range reads being empty (JS `undefined` is falsy). For 8-wide
rows this is the row itself. -/
def row8 (l : List (Option Piece)) : List (Option Piece) :=
  (l ++ List.replicate 8 none).take 8

/-- The row joiner of the piece-placement FEN ('/' between rows),
exactly as the source appends '/' after every row but the last. -/
def joinFen : List (List Char) → List Char
  | [] => []
  | [r] => r
  | r :: rest => r ++ '/' :: joinFen rest

/-- FenGenerator.getPiecePlacementFen: rows from 7 down to 0, joined
by '/'. -/
def FenGenerator.getPiecePlacementFen (b : BoardState) : List Char :=
  joinFen (([7, 6, 5, 4, 3, 2, 1, 0] : List Nat).map fun r => rowFenAux (row8 (b.getD r [])) 0)

/-- One castling-availability conjunct of getCastlingFen: an unmoved
king on the back-rank king square and an unmoved rook on the rook
square (the source checks types and hasMoved only, not colors). -/
def castleFlag (kingSq rookSq : Option Piece) : Bool :=
  (match kingSq with
   | some k => k.type = .king && !k.hasMoved
   | none => false) &&
  (match rookSq with
   | some r => r.type = .rook && !r.hasMoved
   | none => false)

/-- FenGenerator.getCastlingFen. -/
def FenGenerator.getCastlingFen (b : BoardState) : List Char :=
  let fen :=
    (if castleFlag (boardGet b 0 4) (boardGet b 0 7) then ['K'] else []) ++
    (if castleFlag (boardGet b 0 4) (boardGet b 0 0) then ['Q'] else []) ++
    (if castleFlag (boardGet b 7 4) (boardGet b 7 7) then ['k'] else []) ++
    (if castleFlag (boardGet b 7 4) (boardGet b 7 0) then ['q'] else [])
  if fen = [] then ['-'] else fen

/-- File letter a–h of a column (`String.fromCharCode(97 + col)`). -/
def fileChar (col : Int) : Char := Char.ofNat (97 + col).toNat

/-- FenGenerator.getEnPassantFen. -/
def FenGenerator.getEnPassantFen (gs : GameState) : List Char :=
  match gs.lastMove with
  | none => ['-']
  | some last =>
    if ¬(last.piece.type = .pawn ∧ (last.to_.row - last.from_.row).natAbs = 2) then ['-']
    else [fileChar last.from_.col, if last.piece.color = .white then '3' else '6']

/-- First character of the active color name (`currentTurn.charAt(0)`). -/
def colorChar : PieceColor → Char
  | .white => 'w'
  | .black => 'b'

/-- Full color name characters (string interpolation of the color). -/
def colorChars : PieceColor → List Char
  | .white => ['w', 'h', 'i', 't', 'e']
  | .black => ['b', 'l', 'a', 'c', 'k']

/-- FenGenerator.getPositionKey: placement, active color, castling
rights, en-passant target, space-separated. -/
def FenGenerator.getPositionKey (b : BoardState) (gs : GameState) : PosKey :=
  FenGenerator.getPiecePlacementFen b ++ ' ' :: colorChar gs.currentTurn :: ' ' ::
    FenGenerator.getCastlingFen b ++ ' ' :: FenGenerator.getEnPassantFen gs

/-! ### Game.isSquareAttacked and its persistent cache -/

/-- The persistent attack cache of a Game instance
(`Map<string, boolean>` keyed by position key, square and color). -/
abbrev AttackCache := List (PosKey × Bool)

/-- The cache key `` `${boardKey}:${row},${col}:${attackingColor}` ``. -/
def Game.attackCacheKey (b : BoardState) (gs : GameState) (pos : BoardCoord)
    (attackingColor : PieceColor) : PosKey :=
  FenGenerator.getPositionKey b gs ++ ':' :: intChars pos.row ++ ',' :: intChars pos.col ++
    ':' :: colorChars attackingColor

/-- Game.isSquareAttacked: consult the persistent cache, else compute
via _calculateIsSquareAttacked and store. Returns the answer and the
updated cache. -/
def Game.isSquareAttacked (cache : AttackCache) (b : BoardState) (pos : BoardCoord)
    (attackingColor : PieceColor) (gs : GameState) : Bool × AttackCache :=
  let cacheKey := Game.attackCacheKey b gs pos attackingColor
  match mapGet cache cacheKey with
  | some hit => (hit, cache)
  | none =>
    let result := Game.calculateIsSquareAttacked b pos attackingColor
    (result, mapSet cache cacheKey result)

/-! ### GameState operations (src/model/GameState.ts) -/

/-- GameState.addMove: push history, switch turn, update the mover's
king position when a king moved. -/
def GameState.addMove (gs : GameState) (move : Move) : GameState :=
  let gs1 := { gs with moveHistory := gs.moveHistory ++ [move], lastMove := some move,
                       currentTurn := gs.currentTurn.other }
  if move.piece.type = .king then
    if move.piece.color = .white then { gs1 with whiteKingPos := move.to_ }
    else { gs1 with blackKingPos := move.to_ }
  else gs1

/-- GameState.updateStateAfterMove: halfmove clock, then the position
occurrence count for the key of the post-move board (the turn has
already been switched by addMove). -/
def GameState.updateStateAfterMove (gs : GameState) (move : Move) (board : BoardState) :
    GameState :=
  let gs1 :=
    if move.piece.type = .pawn ∨ move.captured.isSome then { gs with halfMoveClock := 0 }
    else { gs with halfMoveClock := gs.halfMoveClock + 1 }
  let positionKey := FenGenerator.getPositionKey board gs1
  let count := (mapGet gs1.positionHistory positionKey).getD 0
  { gs1 with positionHistory := mapSet gs1.positionHistory positionKey (count + 1) }

/-- JavaScript `array.slice(0, e)` (negative `e` counts from the end). -/
def jsSliceTo {α : Type} (l : List α) (e : Int) : List α :=
  l.take (if e < 0 then ((l.length : Int) + e).toNat else e.toNat)

/-- GameState.saveSnapshot: truncate any redo tail beyond the cursor,
push a deep snapshot of board and scalars, advance the cursor. -/
def GameState.saveSnapshot (gs : GameState) (board : BoardState) : GameState :=
  let snaps :=
    if gs.currentSnapshotIndex < (gs.gameSnapshots.length : Int) - 1 then
      jsSliceTo gs.gameSnapshots (gs.currentSnapshotIndex + 1)
    else gs.gameSnapshots
  let snapshot : GameSnapshot :=
    { board := BoardUtils.cloneBoard board, currentTurn := gs.currentTurn,
      moveHistory := gs.moveHistory, lastMove := gs.lastMove, isCheck := gs.isCheck,
      isCheckmate := gs.isCheckmate, isStalemate := gs.isStalemate, isDraw := gs.isDraw,
      whiteKingPos := gs.whiteKingPos, blackKingPos := gs.blackKingPos,
      halfMoveClock := gs.halfMoveClock, positionHistory := gs.positionHistory }
  { gs with gameSnapshots := snaps ++ [snapshot],
            currentSnapshotIndex := gs.currentSnapshotIndex + 1 }

/-- GameState.restoreFromSnapshot (does not touch the snapshot stack or
cursor, nor the cached legal-move list). -/
def GameState.restoreFromSnapshot (gs : GameState) (snap : GameSnapshot) : GameState :=
  { gs with currentTurn := snap.currentTurn, moveHistory := snap.moveHistory,
            lastMove := snap.lastMove, isCheck := snap.isCheck,
            isCheckmate := snap.isCheckmate, isStalemate := snap.isStalemate,
            isDraw := snap.isDraw, whiteKingPos := snap.whiteKingPos,
            blackKingPos := snap.blackKingPos, halfMoveClock := snap.halfMoveClock,
            positionHistory := snap.positionHistory }

/-- GameState.undo: guard at the first snapshot, else step the cursor
back and restore. (On the modelled paths the cursor stays within the
stack, so the out-of-range lookup fallback is never taken.) -/
def GameState.undo (gs : GameState) : GameState × Option GameSnapshot :=
  if gs.currentSnapshotIndex ≤ 0 then (gs, none)
  else
    let idx := gs.currentSnapshotIndex - 1
    let gs1 := { gs with currentSnapshotIndex := idx }
    match gs.gameSnapshots.get? idx.toNat with
    | some snap => (GameState.restoreFromSnapshot gs1 snap, some snap)
    | none => (gs1, none)

/-- GameState.redo: guard at the last snapshot, else step the cursor
forward and restore. -/
def GameState.redo (gs : GameState) : GameState × Option GameSnapshot :=
  if gs.currentSnapshotIndex ≥ (gs.gameSnapshots.length : Int) - 1 then (gs, none)
  else
    let idx := gs.currentSnapshotIndex + 1
    let gs1 := { gs with currentSnapshotIndex := idx }
    match gs.gameSnapshots.get? idx.toNat with
    | some snap => (GameState.restoreFromSnapshot gs1 snap, some snap)
    | none => (gs1, none)

/-- GameState.canUndo. -/
def GameState.canUndo (gs : GameState) : Bool := gs.currentSnapshotIndex > 0

/-- GameState.canRedo. -/
def GameState.canRedo (gs : GameState) : Bool :=
  gs.currentSnapshotIndex < (gs.gameSnapshots.length : Int) - 1

/-! ### GameEndDetection (src/model/GameEndDetection.ts) -/

/-- GameEndDetection.isInsufficientMaterial: concatenated per-color
piece lists, kings filtered out, then the source's three cases (the
two-piece case demands two bishops on same-colored squares, with no
constraint on who owns them). -/
def GameEndDetection.isInsufficientMaterial (b : BoardState) : Bool :=
  let pieces := BoardUtils.getPiecesByColor b .white ++ BoardUtils.getPiecesByColor b .black
  let nonKingPieces := pieces.filter fun pp => pp.1.type ≠ .king
  match nonKingPieces with
  | [] => true
  | [p] => p.1.type = .bishop || p.1.type = .knight
  | [p1, p2] =>
    if p1.1.type = .bishop ∧ p2.1.type = .bishop then
      (p1.2.row + p1.2.col) % 2 = (p2.2.row + p2.2.col) % 2
    else false
  | _ => false

/-- GameEndDetection.isDrawByRule: fifty-move clock at 100 half-moves,
threefold occurrence of the current position key, or insufficient
material. -/
def GameEndDetection.isDrawByRule (b : BoardState) (gs : GameState) : Bool :=
  (100 ≤ gs.halfMoveClock) ||
  (3 ≤ (mapGet gs.positionHistory (FenGenerator.getPositionKey b gs)).getD 0) ||
  GameEndDetection.isInsufficientMaterial b

/-- GameEndDetection.isInCheck: persistent-cache attack query on the
color's king square by the opponent. -/
def GameEndDetection.isInCheck (cache : AttackCache) (b : BoardState)
    (color : PieceColor) (gs : GameState) : Bool × AttackCache :=
  let kingPos := if color = .white then gs.whiteKingPos else gs.blackKingPos
  Game.isSquareAttacked cache b kingPos color.other gs

/-! ### ChessGameController (src/components/ChessGameController.ts) -/

/-- The controller state that the engine core touches: the authoritative
GameState, the current board, the Game instance's persistent attack
cache, and a pending promotion move awaiting a piece choice. -/
structure Controller where
  gameState : GameState
  currentBoard : BoardState
  attackCache : AttackCache
  promotionMove : Option Move := none
deriving DecidableEq

/-- ChessGameController.initGame: seed the repetition map with the
start key, snapshot the initial position, compute the legal moves. -/
def Controller.init : Controller :=
  let board := BoardUtils.createInitialBoard
  let gs0 : GameState := {}
  let startKey := FenGenerator.getPositionKey board gs0
  let gs1 := { gs0 with positionHistory := mapSet gs0.positionHistory startKey 1 }
  let gs2 := GameState.saveSnapshot gs1 board
  let gs3 := { gs2 with allLegalMovesForCurrentTurn :=
      Game.generateAllLegalMoves (BoardUtils.cloneBoard board) gs2.currentTurn gs2 }
  { gameState := gs3, currentBoard := board, attackCache := [] }

/-- ChessGameController.finaliseMove followed by checkGameEnd: record
the move, update clocks/repetition, regenerate legal moves for the new
side to move, then recompute the end-condition flags. -/
def Controller.finaliseMove (ctl : Controller) (m : Move) : Controller :=
  let gs1 := GameState.addMove ctl.gameState m
  let gs2 := GameState.updateStateAfterMove gs1 m ctl.currentBoard
  let gs3 := { gs2 with allLegalMovesForCurrentTurn :=
      Game.generateAllLegalMoves (BoardUtils.cloneBoard ctl.currentBoard) gs2.currentTurn gs2 }
  let color := gs3.currentTurn
  let hasLegal : Bool := decide (gs3.allLegalMovesForCurrentTurn.length > 0)
  let (isCheck, cache1) := GameEndDetection.isInCheck ctl.attackCache ctl.currentBoard color gs3
  let gs4 := { gs3 with isCheck := isCheck, isCheckmate := isCheck && !hasLegal,
                        isStalemate := !isCheck && !hasLegal }
  let ruleDraw := GameEndDetection.isDrawByRule ctl.currentBoard gs4
  let gs5 := { gs4 with isDraw := gs4.isStalemate || ruleDraw }
  { ctl with gameState := gs5, attackCache := cache1 }

/-- ChessGameController.executeMove: snapshot the pre-move position,
apply the move via MoveExecutor, mirror a king move into the tracked
king position, then either wait for a promotion choice or finalise. -/
def Controller.executeMove (ctl : Controller) (m : Move) : Controller :=
  let gsA := GameState.saveSnapshot ctl.gameState ctl.currentBoard
  let board1 := MoveExecutor.executeMove ctl.currentBoard m
  let gsB :=
    if m.piece.type = .king then
      if m.piece.color = .white then { gsA with whiteKingPos := m.to_ }
      else { gsA with blackKingPos := m.to_ }
    else gsA
  let ctl1 := { ctl with gameState := gsB, currentBoard := board1 }
  if PromotionHandler.needsPromotion m.piece m.to_ then
    { ctl1 with promotionMove := some m }
  else Controller.finaliseMove ctl1 m

/-! ### Concrete positions used to settle the claims -/

/-- An empty board row. -/
def emptyRow : List (Option Piece) := List.replicate 8 none

/-- White to castle kingside: White Ra1, Ke1, Rh1, Black Ke8, nothing
else; every piece unmoved. -/
def castleDemoBoard : BoardState :=
  [ [some ⟨.rook, .white, false⟩, none, none, none, some ⟨.king, .white, false⟩,
     none, none, some ⟨.rook, .white, false⟩],
    emptyRow, emptyRow, emptyRow, emptyRow, emptyRow, emptyRow,
    [none, none, none, none, some ⟨.king, .black, false⟩, none, none, none] ]

/-- The kingside castling move for `castleDemoBoard`, exactly as
CastlingHandler.canCastle constructs it. -/
def castleDemoMove : Move :=
  { from_ := ⟨0, 4⟩, to_ := ⟨0, 6⟩, piece := ⟨.king, .white, false⟩,
    isCastling := some .kingside }

/-- A stateless attack predicate: the direct uncached attack
computation, usable as the probe callback. -/
def plainAttack (b : BoardState) (p : BoardCoord) (c : PieceColor) (s : Unit) :
    Bool × Unit :=
  (Game.calculateIsSquareAttacked b p c, s)

/-- En-passant demo: Black just played d7-d5 past White's e5 pawn
(White pawn e5 = (4,4), Black pawn d5 = (4,3)); kings on e1/e8. -/
def epDemoBoard : BoardState :=
  [ [none, none, none, none, some ⟨.king, .white, false⟩, none, none, none],
    emptyRow, emptyRow, emptyRow,
    [none, none, none, some ⟨.pawn, .black, true⟩, some ⟨.pawn, .white, true⟩,
     none, none, none],
    emptyRow, emptyRow,
    [none, none, none, none, some ⟨.king, .black, false⟩, none, none, none] ]

/-- The en-passant capture e5xd6 on `epDemoBoard`. -/
def epDemoMove : Move :=
  { from_ := ⟨4, 4⟩, to_ := ⟨5, 3⟩, piece := ⟨.pawn, .white, true⟩,
    isEnPassant := true, captured := some ⟨.pawn, .black, true⟩ }

/-- Pin demo: White Nb1, Ke1, Be2; Black Re8, Kh8; White to move. The
bishop on e2 is pinned against the king by the rook on e8. -/
def pinDemoBoard : BoardState :=
  [ [none, some ⟨.knight, .white, true⟩, none, none, some ⟨.king, .white, true⟩,
     none, none, none],
    [none, none, none, none, some ⟨.bishop, .white, true⟩, none, none, none],
    emptyRow, emptyRow, emptyRow, emptyRow, emptyRow,
    [none, none, none, none, some ⟨.rook, .black, true⟩, none, none,
     some ⟨.king, .black, true⟩] ]

/-- The game state matching `pinDemoBoard` (kings on e1 / h8). -/
def pinDemoGS : GameState := { whiteKingPos := ⟨0, 4⟩, blackKingPos := ⟨7, 7⟩ }

/-- The pinned bishop's move e2-f3, as the generator constructs it. -/
def pinDemoMove : Move :=
  { from_ := ⟨1, 4⟩, to_ := ⟨2, 5⟩, piece := ⟨.bishop, .white, true⟩ }

/-- Promotion demo: White Ke1 and pawn a7, Black Kh8; White to move. -/
def promoDemoBoard : BoardState :=
  [ [none, none, none, none, some ⟨.king, .white, true⟩, none, none, none],
    emptyRow, emptyRow, emptyRow, emptyRow, emptyRow,
    [some ⟨.pawn, .white, true⟩, none, none, none, none, none, none, none],
    [none, none, none, none, none, none, none, some ⟨.king, .black, true⟩] ]

/-- The game state matching `promoDemoBoard`. -/
def promoDemoGS : GameState := { whiteKingPos := ⟨0, 4⟩, blackKingPos := ⟨7, 7⟩ }

/-- The promotion push a7-a8, tagged `promotion = queen` exactly as
Game._validateMoveLite constructs it. -/
def promoDemoMove : Move :=
  { from_ := ⟨6, 0⟩, to_ := ⟨7, 0⟩, piece := ⟨.pawn, .white, true⟩,
    promotion := some .queen }

/-- The initial double pawn advance e2-e4, as generated from the
standard initial position. -/
def e4Move : Move := { from_ := ⟨1, 4⟩, to_ := ⟨3, 4⟩, piece := ⟨.pawn, .white, false⟩ }

/-! ### Claim C1 -/

/-- C1: the claim says `MoveExecutor.executeMove` actually performs a
flagged castling or en-passant move on the returned board. In the code
it does not: `_makeMove` invokes `executeCastling` / `executeEnPassant`,
which clone the board and return the clone, and discards the returned
board, so `executeMove` returns the input board unchanged — after the
kingside castling commit the king is still on (0,4) and (0,6) is empty,
and after the en-passant commit the capturing pawn has not moved and
the victim pawn is still on the board. The castling move used is the
exact move object `canCastle` deems valid (so the inputs are the ones
the engine itself produces), and `executeCastling`'s discarded return
value shows the handler itself would have changed the board. -/
theorem c1_executeMove_discards_special_moves :
    (CastlingHandler.canCastle castleDemoBoard ⟨.king, .white, false⟩ ⟨0, 4⟩ ⟨0, 6⟩
        plainAttack ()).1 = some castleDemoMove ∧
    MoveExecutor.executeMove castleDemoBoard castleDemoMove = castleDemoBoard ∧
    bAt (MoveExecutor.executeMove castleDemoBoard castleDemoMove) ⟨0, 4⟩ =
      some ⟨.king, .white, false⟩ ∧
    bAt (MoveExecutor.executeMove castleDemoBoard castleDemoMove) ⟨0, 6⟩ = none ∧
    CastlingHandler.executeCastling castleDemoBoard castleDemoMove ≠ castleDemoBoard ∧
    EnPassantHandler.isEnPassantMove ⟨.pawn, .white, true⟩ epDemoBoard ⟨4, 4⟩ ⟨5, 3⟩
      (some { from_ := ⟨6, 3⟩, to_ := ⟨4, 3⟩, piece := ⟨.pawn, .black, false⟩ }) = true ∧
    MoveExecutor.executeMove epDemoBoard epDemoMove = epDemoBoard ∧
    bAt (MoveExecutor.executeMove epDemoBoard epDemoMove) ⟨4, 3⟩ =
      some ⟨.pawn, .black, true⟩ ∧
    bAt (MoveExecutor.executeMove epDemoBoard epDemoMove) ⟨5, 3⟩ = none := by
  refine ⟨by decide, by decide, by decide, by decide, by decide, by decide,
    by decide, by decide, by decide⟩

/-! ### Claim C2 -/

/-- C2: the claim says every move returned by
`Game.generateAllLegalMoves` leaves the mover's own king unattacked
after the move. Counterexample on the code: on `pinDemoBoard` the
knight's probes populate the pass-scoped cache with "square (0,4) not
attacked by black" for a *different* transiently mutated board; the
pinned bishop's probes then hit that stale entry (the cache key carries
no board identity), so the illegal pin-breaking move e2-f3 is emitted —
yet after applying it, White's king square (0,4) is attacked by the
rook on e8. -/
theorem c2_generator_emits_self_check_move :
    pinDemoMove ∈ Game.generateAllLegalMoves pinDemoBoard .white pinDemoGS ∧
    bAt (MoveExecutor.executeMove pinDemoBoard pinDemoMove) ⟨0, 4⟩ =
      some ⟨.king, .white, true⟩ ∧
    Game.calculateIsSquareAttacked (MoveExecutor.executeMove pinDemoBoard pinDemoMove)
      ⟨0, 4⟩ .black = true := by
  refine ⟨by decide, by decide, by decide⟩

/-! ### Claim C5 -/

/-- C5: the claim says the king-safety probe of a promotion move runs
its attack test on a board that has a queen on the destination square.
In the code the promotion tag is indeed set to queen (first conjunct:
the generator emits a7-a8 with `promotion = queen`), and the probe does
evaluate the attack callback on the board produced by `_makeMove` (second
conjunct, for every callback) — but that board still has a PAWN on the
destination square (third conjunct), because `_makeMove` discards the
fresh board returned by `executePromotion`; the discarded board did have
the queen (fourth conjunct). So the safety check observes the pawn's
attack pattern, not the queen's. -/
theorem c5_probe_board_has_pawn_not_queen :
    promoDemoMove ∈ Game.generateAllLegalMoves promoDemoBoard .white promoDemoGS ∧
    (∀ (σ : Type) (isAtt : BoardState → BoardCoord → PieceColor → σ → Bool × σ) (s : σ),
      (MoveExecutor.wouldLeaveKingInCheck promoDemoBoard promoDemoMove ⟨0, 4⟩ isAtt s).1 =
        (isAtt (MoveExecutor.makeMove promoDemoBoard promoDemoMove) ⟨0, 4⟩ .black s).1) ∧
    bAt (MoveExecutor.makeMove promoDemoBoard promoDemoMove) ⟨7, 0⟩ =
      some ⟨.pawn, .white, true⟩ ∧
    bAt (PromotionHandler.executePromotion
          (MoveExecutor.makeMove promoDemoBoard promoDemoMove) ⟨7, 0⟩ .queen) ⟨7, 0⟩ =
      some ⟨.queen, .white, true⟩ := by
  refine ⟨by decide, fun σ isAtt s => rfl, by decide, by decide⟩

/-! ### Claim C8 -/

/-- C8: from the standard initial position White has exactly 20 legal
moves; e2-e4 is among them; and after committing it (executeMove plus
addMove, which records the move and switches the turn) Black has
exactly 20 legal moves. -/
theorem c8_twenty_moves_initial_and_after_e4 :
    (Game.generateAllLegalMoves BoardUtils.createInitialBoard .white
        ({} : GameState)).length = 20 ∧
    e4Move ∈ Game.generateAllLegalMoves BoardUtils.createInitialBoard .white
        ({} : GameState) ∧
    (Game.generateAllLegalMoves
        (MoveExecutor.executeMove BoardUtils.createInitialBoard e4Move) .black
        (GameState.addMove ({} : GameState) e4Move)).length = 20 := by
  refine ⟨by decide, by decide, by decide⟩

/-! ### Claim C7 -/

/-- First pass of the reversible knight cycle Nf3 Nf6 Ng1 Ng8 (piece
snapshots carry hasMoved = false on the knights' first moves). -/
def knightCycleFirst : List Move :=
  [ { from_ := ⟨0, 6⟩, to_ := ⟨2, 5⟩, piece := ⟨.knight, .white, false⟩ },
    { from_ := ⟨7, 6⟩, to_ := ⟨5, 5⟩, piece := ⟨.knight, .black, false⟩ },
    { from_ := ⟨2, 5⟩, to_ := ⟨0, 6⟩, piece := ⟨.knight, .white, true⟩ },
    { from_ := ⟨5, 5⟩, to_ := ⟨7, 6⟩, piece := ⟨.knight, .black, true⟩ } ]

/-- Later passes of the knight cycle (both knights have moved before,
so the generator's snapshots carry hasMoved = true). -/
def knightCycleLater : List Move :=
  [ { from_ := ⟨0, 6⟩, to_ := ⟨2, 5⟩, piece := ⟨.knight, .white, true⟩ },
    { from_ := ⟨7, 6⟩, to_ := ⟨5, 5⟩, piece := ⟨.knight, .black, true⟩ },
    { from_ := ⟨2, 5⟩, to_ := ⟨0, 6⟩, piece := ⟨.knight, .white, true⟩ },
    { from_ := ⟨5, 5⟩, to_ := ⟨7, 6⟩, piece := ⟨.knight, .black, true⟩ } ]

/-- The knight cycle replayed three times from the initial position. -/
def repetitionScript : List Move := knightCycleFirst ++ knightCycleLater ++ knightCycleLater

/-- Controller states before each scripted ply (for legality checks). -/
def repetitionPre : List Controller :=
  (repetitionScript.scanl Controller.executeMove Controller.init).dropLast

/-- Controller states after each scripted ply. -/
def repetitionStates : List Controller :=
  (repetitionScript.scanl Controller.executeMove Controller.init).drop 1

/-- C7: replaying the reversible 4-move knight cycle three times from
the initial position. Every scripted move is present in the engine's
own pregenerated legal-move list for its position (first conjunct, so
the run is reachable through committed moves). The occurrence counts of
the current position-identity key after each ply are
1,1,1,2,2,2,2,3,3,3,3,4 (third conjunct), and the draw flag after each
ply is false for the first seven plies and true from ply 8 on (second
conjunct) — i.e. the flag first becomes true exactly when the count of
the current key reaches 3 (ply 8, the third occurrence of the starting
position's key), and at every ply the flag equals "count of the current
key ≥ 3": repetition sets it on no earlier occurrence. -/
theorem c7_threefold_repetition_on_third_occurrence :
    ((repetitionPre.zip repetitionScript).all
      (fun pc => pc.1.gameState.allLegalMovesForCurrentTurn.any (· = pc.2)) = true) ∧
    repetitionStates.map (fun c => c.gameState.isDraw) =
      [false, false, false, false, false, false, false, true, true, true, true, true] ∧
    repetitionStates.map (fun c =>
      (mapGet c.gameState.positionHistory
        (FenGenerator.getPositionKey c.currentBoard c.gameState)).getD 0) =
      [1, 1, 1, 2, 2, 2, 2, 3, 3, 3, 3, 4] := by
  refine ⟨by decide, by decide, by decide⟩

/-! ### Claim C4 -/

/-- A fully legal 7-ply game reaching a White kingside castling commit:
1.Nf3 a6 2.g3 b6 3.Bg2 c6 4.O-O. -/
def castleScript : List Move :=
  [ { from_ := ⟨0, 6⟩, to_ := ⟨2, 5⟩, piece := ⟨.knight, .white, false⟩ },
    { from_ := ⟨6, 0⟩, to_ := ⟨5, 0⟩, piece := ⟨.pawn, .black, false⟩ },
    { from_ := ⟨1, 6⟩, to_ := ⟨2, 6⟩, piece := ⟨.pawn, .white, false⟩ },
    { from_ := ⟨6, 1⟩, to_ := ⟨5, 1⟩, piece := ⟨.pawn, .black, false⟩ },
    { from_ := ⟨0, 5⟩, to_ := ⟨1, 6⟩, piece := ⟨.bishop, .white, false⟩ },
    { from_ := ⟨6, 2⟩, to_ := ⟨5, 2⟩, piece := ⟨.pawn, .black, false⟩ },
    { from_ := ⟨0, 4⟩, to_ := ⟨0, 6⟩, piece := ⟨.king, .white, false⟩,
      isCastling := some .kingside } ]

/-- Controller states before each ply of `castleScript`. -/
def castleScriptPre : List Controller :=
  (castleScript.scanl Controller.executeMove Controller.init).dropLast

/-- The controller state after the castling commit. -/
def castleScriptFinal : Controller :=
  castleScript.foldl Controller.executeMove Controller.init

/-- C4: the claim says the tracked king positions always match the king
squares of the current board in every state reachable through committed
moves, castling included. Counterexample on the code: the 7-ply script
1.Nf3 a6 2.g3 b6 3.Bg2 c6 4.O-O consists solely of moves taken from the
engine's own legal-move lists (first conjunct), yet after the castling
commit `whiteKingPos` is (0,6) while the board still holds the white
king on (0,4) and square (0,6) is empty — because the castling commit
went through `MoveExecutor.executeMove`, which discards the board
returned by `executeCastling`, while the controller updated
`whiteKingPos` to the castling destination anyway. -/
theorem c4_king_position_desync_after_castling :
    ((castleScriptPre.zip castleScript).all
      (fun pc => pc.1.gameState.allLegalMovesForCurrentTurn.any (· = pc.2)) = true) ∧
    castleScriptFinal.gameState.whiteKingPos = ⟨0, 6⟩ ∧
    bAt castleScriptFinal.currentBoard ⟨0, 4⟩ = some ⟨.king, .white, false⟩ ∧
    bAt castleScriptFinal.currentBoard ⟨0, 6⟩ = none := by
  refine ⟨by decide, by decide, by decide, by decide⟩

/-! ### Board access lemmas -/

theorem getD_set_self {α : Type} (l : List α) (i : Nat) (x d : α) (h : i < l.length) :
    (l.set i x).getD i d = x := by
  rw [List.getD_eq_getElem?_getD, List.getElem?_set_self h, Option.getD_some]

theorem getD_set_ne {α : Type} (l : List α) (i j : Nat) (x : α) (d : α) (h : i ≠ j) :
    (l.set i x).getD j d = l.getD j d := by
  rw [List.getD_eq_getElem?_getD, List.getElem?_set_ne h, ← List.getD_eq_getElem?_getD]

theorem set_getD_self {α : Type} (l : List α) (i : Nat) (d : α) (h : i < l.length) :
    l.set i (l.getD i d) = l := by
  apply List.ext_getElem?_iff.mpr
  intro j
  by_cases hij : i = j
  · subst hij
    rw [List.getElem?_set_self h, List.getD_eq_getElem?_getD,
      (List.getElem?_eq_some_getElem_iff l i h).mpr trivial, Option.getD_some]
  · rw [List.getElem?_set_ne hij]

theorem getD_oob {α : Type} (l : List α) (i : Nat) (d : α) (h : l.length ≤ i) :
    l.getD i d = d := by
  rw [List.getD_eq_getElem?_getD, List.getElem?_eq_none_iff.mpr h, Option.getD_none]

theorem boardWF_row {b : BoardState} (wf : BoardWF b) {i : Nat} (h : i < 8) :
    (b.getD i []).length = 8 := by
  obtain ⟨hlen, hrows⟩ := wf
  have hib : i < b.length := by omega
  rw [List.getD_eq_getElem?_getD, (List.getElem?_eq_some_getElem_iff b i hib).mpr trivial,
    Option.getD_some]
  exact hrows _ (List.getElem_mem hib)

theorem boardGet_boardSet_self {b : BoardState} {r c : Int} {v : Option Piece}
    (wf : BoardWF b) (hr : 0 ≤ r) (hr8 : r < 8) (hc : 0 ≤ c) (hc8 : c < 8) :
    boardGet (boardSet b r c v) r c = v := by
  unfold boardGet boardSet
  rw [if_pos ⟨hr, hc⟩, if_pos ⟨hr, hc⟩]
  rw [getD_set_self _ _ _ _ (by rw [wf.1]; omega)]
  exact getD_set_self _ _ _ _ (by rw [boardWF_row wf (by omega)]; omega)

theorem boardGet_boardSet_ne {b : BoardState} {v : Option Piece} {r c r' c' : Int}
    (h : r ≠ r' ∨ c ≠ c') :
    boardGet (boardSet b r c v) r' c' = boardGet b r' c' := by
  unfold boardGet boardSet
  by_cases h1 : 0 ≤ r ∧ 0 ≤ c
  · rw [if_pos h1]
    by_cases h2 : 0 ≤ r' ∧ 0 ≤ c'
    · rw [if_pos h2, if_pos h2]
      by_cases hrr : r = r'
      · subst hrr
        have hcc : c.toNat ≠ c'.toNat := by
          rcases h with h | h
          · exact absurd rfl h
          · omega
        by_cases hlen : r.toNat < b.length
        · rw [getD_set_self _ _ _ _ hlen, getD_set_ne _ _ _ _ _ hcc]
        · rw [List.set_eq_of_length_le (by omega)]
      · have : r.toNat ≠ r'.toNat := by omega
        rw [getD_set_ne _ _ _ _ _ this]
    · rw [if_neg h2, if_neg h2]
  · rw [if_neg h1]

theorem boardWF_boardSet {b : BoardState} (wf : BoardWF b) (r c : Int)
    (v : Option Piece) : BoardWF (boardSet b r c v) := by
  unfold boardSet
  by_cases h1 : 0 ≤ r ∧ 0 ≤ c
  · rw [if_pos h1]
    by_cases hlen : r.toNat < b.length
    · refine ⟨by rw [List.length_set]; exact wf.1, ?_⟩
      intro row hrow
      rcases List.mem_or_eq_of_mem_set hrow with hmem | heq
      · exact wf.2 row hmem
      · rw [heq, List.length_set]
        exact boardWF_row wf (by have := wf.1; omega)
    · rw [List.set_eq_of_length_le (by omega)]
      exact wf
  · rw [if_neg h1]; exact wf

theorem boardSet_boardGet_self {b : BoardState} {r c : Int} (wf : BoardWF b)
    (hr : 0 ≤ r) (hr8 : r < 8) (hc : 0 ≤ c) (hc8 : c < 8) :
    boardSet b r c (boardGet b r c) = b := by
  unfold boardGet boardSet
  rw [if_pos ⟨hr, hc⟩, if_pos ⟨hr, hc⟩]
  rw [set_getD_self _ _ _ (by rw [boardWF_row wf (by omega)]; omega)]
  exact set_getD_self _ _ _ (by rw [wf.1]; omega)

theorem bounds_of_boardGet_some {b : BoardState} {r c : Int} {p : Piece}
    (wf : BoardWF b) (h : boardGet b r c = some p) :
    0 ≤ r ∧ r < 8 ∧ 0 ≤ c ∧ c < 8 := by
  unfold boardGet at h
  by_cases h1 : 0 ≤ r ∧ 0 ≤ c
  · rw [if_pos h1] at h
    have hr8 : r < 8 := by
      by_contra hcon
      rw [getD_oob b r.toNat [] (by rw [wf.1]; omega),
        getD_oob ([] : List (Option Piece)) c.toNat none (by simp)] at h
      exact Option.noConfusion h
    have hc8 : c < 8 := by
      by_contra hcon
      rw [getD_oob _ _ _ (by rw [boardWF_row wf (by omega)]; omega)] at h
      exact Option.noConfusion h
    exact ⟨h1.1, hr8, h1.2, hc8⟩
  · rw [if_neg h1] at h
    exact Option.noConfusion h

theorem boardExt {b1 b2 : BoardState} (wf1 : BoardWF b1) (wf2 : BoardWF b2)
    (h : ∀ r c : Int, 0 ≤ r → r < 8 → 0 ≤ c → c < 8 →
      boardGet b1 r c = boardGet b2 r c) : b1 = b2 := by
  have hlen : b1.length = b2.length := by rw [wf1.1, wf2.1]
  apply List.ext_getElem hlen
  intro i hi1 hi2
  have hi8 : i < 8 := by have := wf1.1; omega
  have hrow1 : b1[i].length = 8 := wf1.2 _ (List.getElem_mem hi1)
  have hrow2 : b2[i].length = 8 := wf2.2 _ (List.getElem_mem hi2)
  apply List.ext_getElem (by rw [hrow1, hrow2])
  intro j hj1 hj2
  have hj8 : j < 8 := by omega
  have hthis := h i j (by omega) (by omega) (by omega) (by omega)
  unfold boardGet at hthis
  rw [if_pos ⟨by omega, by omega⟩] at hthis
  have hti : ((i : Int)).toNat = i := Int.toNat_natCast i
  have htj : ((j : Int)).toNat = j := Int.toNat_natCast j
  rw [hti, htj] at hthis
  rw [List.getD_eq_getElem?_getD b1, (List.getElem?_eq_some_getElem_iff b1 i hi1).mpr trivial,
    Option.getD_some, List.getD_eq_getElem?_getD b1[i],
    (List.getElem?_eq_some_getElem_iff b1[i] j hj1).mpr trivial, Option.getD_some] at hthis
  rw [List.getD_eq_getElem?_getD b2, (List.getElem?_eq_some_getElem_iff b2 i hi2).mpr trivial,
    Option.getD_some, List.getD_eq_getElem?_getD b2[i],
    (List.getElem?_eq_some_getElem_iff b2[i] j hj2).mpr trivial, Option.getD_some] at hthis
  exact hthis

/-! ### Claim C3 -/

/-- A board with only a black rook on (0,0). -/
def unmakeDemoBoard : BoardState :=
  [ [some ⟨.rook, .black, true⟩, none, none, none, none, none, none, none],
    emptyRow, emptyRow, emptyRow, emptyRow, emptyRow, emptyRow, emptyRow ]

/-- A move whose origin square is empty on `unmakeDemoBoard`. -/
def unmakeDemoMove : Move :=
  { from_ := ⟨1, 1⟩, to_ := ⟨0, 0⟩, piece := ⟨.pawn, .white, false⟩ }

/-- C3 counterexample: the claim quantifies over every board and every
move, but for a move whose origin square is empty (here: a plain move
onto the square of the black rook), `_makeMove` is a no-op while
`_unmakeMove` still "restores": it drags the rook from the destination
to the origin square, so make-then-unmake does not restore the board,
and `wouldLeaveKingInCheck` returns with its board argument changed. -/
theorem c3_counterexample_empty_origin :
    MoveExecutor.unmakeMove (MoveExecutor.makeMove unmakeDemoBoard unmakeDemoMove)
      unmakeDemoMove ≠ unmakeDemoBoard ∧
    (MoveExecutor.wouldLeaveKingInCheck unmakeDemoBoard unmakeDemoMove ⟨0, 0⟩
      plainAttack ()).2.1 ≠ unmakeDemoBoard := by
  refine ⟨by decide, by decide⟩

/-- C3 amended: make-then-unmake is an exact inverse (and the probe
restores its board) for the moves the executor is actually fed: plain
moves (no castling or en-passant flag) on a well-formed board whose
origin square holds a piece, with distinct on-board origin and
destination, whose `captured` snapshot matches the destination content,
whose `piece` snapshot carries the origin piece's hasMoved flag, and
whose promotion tag (if any) sits on a pawn. These are exactly the
side conditions the counterexample shows to be necessary; the move
records built by Game._validateMoveLite satisfy all of them. -/
theorem c3_make_unmake_restores (b : BoardState) (m : Move) (p : Piece)
    (wf : BoardWF b)
    (hcast : m.isCastling = none)
    (hep : m.isEnPassant = false)
    (hfrom : bAt b m.from_ = some p)
    (hne : m.from_ ≠ m.to_)
    (hto : CoordinateUtils.isValidCoord m.to_ = true)
    (hcap : m.captured = bAt b m.to_)
    (hhm : m.piece.hasMoved = p.hasMoved)
    (hpromo : m.promotion.isSome = true → p.type = .pawn) :
    MoveExecutor.unmakeMove (MoveExecutor.makeMove b m) m = b ∧
    ∀ (σ : Type) (isAtt : BoardState → BoardCoord → PieceColor → σ → Bool × σ)
      (kingPos : BoardCoord) (s : σ),
      (MoveExecutor.wouldLeaveKingInCheck b m kingPos isAtt s).2.1 = b := by
  obtain ⟨hfr0, hfr8, hfc0, hfc8⟩ := bounds_of_boardGet_some wf hfrom
  have htb : 0 ≤ m.to_.row ∧ m.to_.row < 8 ∧ 0 ≤ m.to_.col ∧ m.to_.col < 8 := by
    unfold CoordinateUtils.isValidCoord at hto
    simp only [Bool.and_eq_true, decide_eq_true_eq] at hto
    omega
  obtain ⟨htr0, htr8, htc0, htc8⟩ := htb
  have coordne : m.from_.row ≠ m.to_.row ∨ m.from_.col ≠ m.to_.col := by
    by_contra hcon
    push_neg at hcon
    exact hne (by cases hm : m.from_; cases hm' : m.to_; simp_all)
  set p1 : Piece := { p with hasMoved := true } with hp1
  have hmk : MoveExecutor.makeMove b m =
      bPut (bPut b m.to_ (some p1)) m.from_ none := by
    unfold MoveExecutor.makeMove MoveExecutor.makeNormalMove
    rw [hcast, hep]
    simp only [Option.isSome_none, Bool.false_eq_true, if_false, ite_self, hfrom]
  set b2 := bPut (bPut b m.to_ (some p1)) m.from_ none with hb2
  have wfA : BoardWF (bPut b m.to_ (some p1)) := boardWF_boardSet wf _ _ _
  have wf2 : BoardWF b2 := boardWF_boardSet wfA _ _ _
  have g1 : bAt b2 m.to_ = some p1 := by
    unfold bAt bPut at *
    rw [hb2, boardGet_boardSet_ne (by tauto),
      boardGet_boardSet_self wf htr0 htr8 htc0 htc8]
  have hb3 : (if m.promotion.isSome then PromotionHandler.unmakePromotion b2 m.to_ else b2)
      = b2 := by
    by_cases hpm : m.promotion.isSome
    · rw [if_pos hpm]
      unfold PromotionHandler.unmakePromotion
      have hpt : p.type = .pawn := hpromo hpm
      have hsame : ({ p1 with type := .pawn } : Piece) = p1 := by
        rw [hp1]; cases p; simp_all
      simp only [g1, hsame]
      conv_lhs => rw [← g1]
      unfold bAt bPut
      exact boardSet_boardGet_self wf2 htr0 htr8 htc0 htc8
    · rw [if_neg hpm]
  have hmp : ({ p1 with hasMoved := m.piece.hasMoved } : Piece) = p := by
    rw [hp1]; cases p; simp_all
  have hunmk : MoveExecutor.unmakeMove b2 m =
      bPut (bPut (bPut b2 m.to_ (some p)) m.from_ (some p)) m.to_ m.captured := by
    unfold MoveExecutor.unmakeMove MoveExecutor.unmakeNormalMove
    simp only [hcast, hep, Option.isSome_none, Bool.false_eq_true, if_false, hb3, g1, hmp]
  have wfU1 : BoardWF (bPut b2 m.to_ (some p)) := boardWF_boardSet wf2 _ _ _
  have wfU2 : BoardWF (bPut (bPut b2 m.to_ (some p)) m.from_ (some p)) :=
    boardWF_boardSet wfU1 _ _ _
  have wfU3 : BoardWF (bPut (bPut (bPut b2 m.to_ (some p)) m.from_ (some p)) m.to_ m.captured) :=
    boardWF_boardSet wfU2 _ _ _
  have hrestore : MoveExecutor.unmakeMove (MoveExecutor.makeMove b m) m = b := by
    rw [hmk, hunmk]
    apply boardExt wfU3 wf
    intro r c hr0 hr8 hc0 hc8
    unfold bPut at *
    by_cases hT : m.to_.row = r ∧ m.to_.col = c
    · rw [← hT.1, ← hT.2,
        boardGet_boardSet_self wfU2 htr0 htr8 htc0 htc8, hcap]
      rfl
    · have hTne : m.to_.row ≠ r ∨ m.to_.col ≠ c := by tauto
      rw [boardGet_boardSet_ne hTne]
      by_cases hF : m.from_.row = r ∧ m.from_.col = c
      · rw [← hF.1, ← hF.2,
          boardGet_boardSet_self wfU1 hfr0 hfr8 hfc0 hfc8]
        exact hfrom.symm
      · have hFne : m.from_.row ≠ r ∨ m.from_.col ≠ c := by tauto
        rw [boardGet_boardSet_ne hFne, hb2,
          boardGet_boardSet_ne hTne, boardGet_boardSet_ne hFne,
          boardGet_boardSet_ne hTne]
  refine ⟨hrestore, ?_⟩
  intro σ isAtt kingPos s
  show MoveExecutor.unmakeMove (MoveExecutor.makeMove b m) m = b
  exact hrestore

/-- C3 witness board: a lone white pawn on (1,1) of a well-formed
board. -/
def restoreDemoBoard : BoardState :=
  [ emptyRow,
    [none, some ⟨.pawn, .white, false⟩, none, none, none, none, none, none],
    emptyRow, emptyRow, emptyRow, emptyRow, emptyRow, emptyRow ]

/-- The plain pawn push b2-b3 on `restoreDemoBoard`. -/
def restoreDemoMove : Move :=
  { from_ := ⟨1, 1⟩, to_ := ⟨2, 1⟩, piece := ⟨.pawn, .white, false⟩ }

/-- Witness for `c3_make_unmake_restores` at a concrete board and move. -/
theorem c3_make_unmake_restores_witness :
    MoveExecutor.unmakeMove (MoveExecutor.makeMove restoreDemoBoard restoreDemoMove)
      restoreDemoMove = restoreDemoBoard :=
  (c3_make_unmake_restores restoreDemoBoard restoreDemoMove ⟨.pawn, .white, false⟩
    (by decide) (by decide) (by decide) (by decide) (by decide) (by decide)
    (by decide) (by decide) (by intro h; exact absurd h (by decide))).1

/-! ### Claim C10 -/

/-- C10: snapshot-stack semantics. On any state with cursor ≥ -1 (the
cursor starts at -1 and only moves within the stack), pushing a new
snapshot (a) leaves `canRedo` false, and (b) when snapshots existed
beyond the cursor it first discards exactly the tail beyond the cursor,
so the stack becomes the kept prefix plus the single new snapshot —
the former redo tail is unreachable from the new stack. Moreover
(c) undo at the first snapshot and (d) redo at the last snapshot
return null and leave every GameState field unchanged. -/
theorem c10_snapshot_truncation_undo_redo :
    ∀ (gs : GameState) (b : BoardState),
      (-1 ≤ gs.currentSnapshotIndex → (GameState.saveSnapshot gs b).canRedo = false) ∧
      (-1 ≤ gs.currentSnapshotIndex →
        gs.currentSnapshotIndex < (gs.gameSnapshots.length : Int) - 1 →
        ∃ snap : GameSnapshot, snap.board = BoardUtils.cloneBoard b ∧
          (GameState.saveSnapshot gs b).gameSnapshots =
            gs.gameSnapshots.take (gs.currentSnapshotIndex + 1).toNat ++ [snap]) ∧
      (gs.currentSnapshotIndex ≤ 0 → GameState.undo gs = (gs, none)) ∧
      ((gs.gameSnapshots.length : Int) - 1 ≤ gs.currentSnapshotIndex →
        GameState.redo gs = (gs, none)) := by
  intro gs b
  refine ⟨?_, ?_, ?_, ?_⟩
  · intro hge
    unfold GameState.saveSnapshot GameState.canRedo
    by_cases htr : gs.currentSnapshotIndex < (gs.gameSnapshots.length : Int) - 1
    · rw [if_pos htr]
      simp only [List.length_append, List.length_singleton, jsSliceTo,
        if_neg (by omega : ¬gs.currentSnapshotIndex + 1 < 0), List.length_take,
        decide_eq_false_iff_not]
      push_cast
      omega
    · rw [if_neg htr]
      simp only [List.length_append, List.length_singleton, decide_eq_false_iff_not]
      push_cast
      omega
  · intro hge htr
    unfold GameState.saveSnapshot
    rw [if_pos htr]
    exact ⟨_, rfl, by unfold jsSliceTo; rw [if_neg (by omega)]⟩
  · intro hle
    unfold GameState.undo
    rw [if_pos hle]
  · intro hge
    unfold GameState.redo
    rw [if_pos hge]

/-- A concrete GameState with three stored snapshots and the cursor on
the middle one (as after one undo from a two-move game). -/
def undoDemoSnap : GameSnapshot :=
  { board := restoreDemoBoard, currentTurn := .white, moveHistory := [],
    lastMove := none, isCheck := false, isCheckmate := false, isStalemate := false,
    isDraw := false, whiteKingPos := ⟨0, 4⟩, blackKingPos := ⟨7, 4⟩,
    halfMoveClock := 0, positionHistory := [] }

/-- GameState with three snapshots, cursor at 1. -/
def undoDemoGS : GameState :=
  { gameSnapshots := [undoDemoSnap, undoDemoSnap, undoDemoSnap], currentSnapshotIndex := 1 }

/-- GameState with one snapshot, cursor at 0 (the first snapshot). -/
def undoDemoGS0 : GameState :=
  { gameSnapshots := [undoDemoSnap], currentSnapshotIndex := 0 }

/-- Witness for `c10_snapshot_truncation_undo_redo` at concrete states:
pushing onto `undoDemoGS` kills redo and truncates to the kept prefix
plus the new snapshot; undo at the first snapshot and redo at the last
snapshot of `undoDemoGS0` return null unchanged. -/
theorem c10_snapshot_truncation_undo_redo_witness :
    (GameState.saveSnapshot undoDemoGS restoreDemoBoard).canRedo = false ∧
    (∃ snap : GameSnapshot, snap.board = BoardUtils.cloneBoard restoreDemoBoard ∧
      (GameState.saveSnapshot undoDemoGS restoreDemoBoard).gameSnapshots =
        undoDemoGS.gameSnapshots.take 2 ++ [snap]) ∧
    GameState.undo undoDemoGS0 = (undoDemoGS0, none) ∧
    GameState.redo undoDemoGS0 = (undoDemoGS0, none) := by
  obtain ⟨h1, h2, -, -⟩ := c10_snapshot_truncation_undo_redo undoDemoGS restoreDemoBoard
  obtain ⟨-, -, h3, h4⟩ := c10_snapshot_truncation_undo_redo undoDemoGS0 restoreDemoBoard
  exact ⟨h1 (by decide), h2 (by decide) (by decide), h3 (by decide), h4 (by decide)⟩

/-! ### Claim C6 -/

/-- The claim's reading of insufficient material (ownership-aware, for
comparison with the code): true exactly for king vs king, king plus one
minor vs bare king, and king+bishop vs king+bishop on same-colored
squares. -/
def claimInsufficientMaterial (b : BoardState) : Bool :=
  let wNK := (BoardUtils.getPiecesByColor b .white).filter fun pp => pp.1.type ≠ .king
  let bNK := (BoardUtils.getPiecesByColor b .black).filter fun pp => pp.1.type ≠ .king
  match wNK, bNK with
  | [], [] => true
  | [p], [] => p.1.type = .bishop || p.1.type = .knight
  | [], [p] => p.1.type = .bishop || p.1.type = .knight
  | [p1], [p2] =>
    p1.1.type = .bishop && p2.1.type = .bishop &&
      decide ((p1.2.row + p1.2.col) % 2 = (p2.2.row + p2.2.col) % 2)
  | _, _ => false

/-- Both white bishops on same-colored squares against a bare black
king: kings e1/e8 plus white bishops a3 and c3. -/
def bishopsDemoBoard : BoardState :=
  [ [none, none, none, none, some ⟨.king, .white, true⟩, none, none, none],
    emptyRow,
    [some ⟨.bishop, .white, true⟩, none, some ⟨.bishop, .white, true⟩,
     none, none, none, none, none],
    emptyRow, emptyRow, emptyRow, emptyRow,
    [none, none, none, none, some ⟨.king, .black, true⟩, none, none, none] ]

/-- C6 counterexample: the claim says `isInsufficientMaterial` is true
ONLY for the three listed balances, all of which pit one bishop or
minor per side; but the code never looks at who owns the two bishops,
so a king plus TWO same-square-color bishops against a bare king (a
mating material balance, analogous to the claim's explicit
two-knights non-example) is declared insufficient: the code returns
true where the claim requires false. -/
theorem c6_counterexample_two_bishops_one_side :
    GameEndDetection.isInsufficientMaterial bishopsDemoBoard = true ∧
    claimInsufficientMaterial bishopsDemoBoard = false := by
  refine ⟨by decide, by decide⟩

/-- Every piece on the board with its square, row-major. -/
def allPiecesWithPos (b : BoardState) : List (Piece × BoardCoord) :=
  scanCoords.filterMap fun rc => (boardGet b rc.row rc.col).map fun p => (p, rc)

/-- The three-case body of isInsufficientMaterial as a function of the
non-king piece list. -/
def codeInsufficientOn (l : List (Piece × BoardCoord)) : Bool :=
  match l with
  | [] => true
  | [p] => p.1.type = .bishop || p.1.type = .knight
  | [p1, p2] =>
    if p1.1.type = .bishop ∧ p2.1.type = .bishop then
      decide ((p1.2.row + p1.2.col) % 2 = (p2.2.row + p2.2.col) % 2)
    else false
  | _ => false

/-- Order-insensitive insufficiency condition on a non-king piece
list: nothing, or a single minor, or exactly two bishops on
same-colored squares. -/
def amendedInsufficientOn (l : List (Piece × BoardCoord)) : Bool :=
  decide (l.length = 0) ||
  (decide (l.length = 1) &&
    l.all fun pp => pp.1.type = .bishop || pp.1.type = .knight) ||
  (decide (l.length = 2) && (l.all fun pp => pp.1.type = .bishop) &&
    l.all fun x => l.all fun y =>
      decide ((x.2.row + x.2.col) % 2 = (y.2.row + y.2.col) % 2))

/-- The amended reading of insufficient material (ownership-blind, as
the code computes it): ignoring kings, the board holds nothing, or a
single minor piece, or exactly two bishops — whoever owns them —
standing on same-colored squares. -/
def amendedInsufficientMaterial (b : BoardState) : Bool :=
  amendedInsufficientOn ((allPiecesWithPos b).filter fun pp => pp.1.type ≠ .king)

theorem perm_pair {α : Type} {l : List α} {a b : α} (h : l.Perm [a, b]) :
    l = [a, b] ∨ l = [b, a] := by
  have hlen : l.length = 2 := by simpa using h.length_eq
  match l, hlen, h with
  | [x, y], _, h =>
    have hx : x ∈ [a, b] := h.mem_iff.mp (by simp)
    simp only [List.mem_cons, List.mem_singleton, List.not_mem_nil, or_false] at hx
    rcases hx with hxa | hxb
    · subst hxa
      left
      rw [List.Perm.eq_singleton h.cons_inv]
    · subst hxb
      right
      rw [List.Perm.eq_singleton (h.trans (List.Perm.swap x a [])).cons_inv]

theorem insufficient_cases {l1 l2 : List (Piece × BoardCoord)} (hperm : l1.Perm l2) :
    codeInsufficientOn l1 = amendedInsufficientOn l2 := by
  unfold codeInsufficientOn amendedInsufficientOn
  rcases l1 with _ | ⟨p1, _ | ⟨p2, _ | ⟨p3, qs⟩⟩⟩
  · have h := List.perm_nil.mp hperm.symm
    subst h
    rfl
  · have h := List.Perm.eq_singleton hperm.symm
    subst h
    simp
  · rcases perm_pair hperm.symm with h2 | h2 <;> subst h2 <;>
      by_cases hb1 : p1.1.type = .bishop <;>
      by_cases hb2 : p2.1.type = .bishop <;>
      by_cases hpar : (p1.2.row + p1.2.col) % 2 = (p2.2.row + p2.2.col) % 2 <;>
      simp_all
  · have hlen := hperm.length_eq
    simp only [List.length_cons] at hlen
    have h0 : ¬(l2.length = 0) := by omega
    have h1 : ¬(l2.length = 1) := by omega
    have h2 : ¬(l2.length = 2) := by omega
    simp [h0, h1, h2]

/-- C6 amended: `isInsufficientMaterial` returns true exactly when,
ignoring kings, the board holds nothing, or one single minor piece, or
exactly two bishops — regardless of who owns them — standing on
same-colored squares, and false for every other combination. (The
original claim's third case demanded one bishop per side; the
counterexample shows the code does not inspect ownership.) -/
theorem c6_insufficient_material_amended (b : BoardState) :
    GameEndDetection.isInsufficientMaterial b = amendedInsufficientMaterial b := by
  have hcolor : ∀ c : PieceColor, BoardUtils.getPiecesByColor b c =
      (allPiecesWithPos b).filter fun pp => decide (pp.1.color = c) := by
    intro c
    unfold BoardUtils.getPiecesByColor allPiecesWithPos
    rw [List.filter_filterMap]
    congr 1
    funext rc
    cases h : boardGet b rc.row rc.col <;> simp [Option.filter]
  have hsplit : ∀ (A : List (Piece × BoardCoord)),
      (((A.filter fun pp => decide (pp.1.color = .white)) ++
        (A.filter fun pp => decide (pp.1.color = .black))).filter
          fun pp => decide (pp.1.type ≠ .king)).Perm
        (A.filter fun pp => decide (pp.1.type ≠ .king)) := by
    intro A
    rw [List.filter_append, List.filter_filter, List.filter_filter]
    have hw : (A.filter fun a =>
          decide (a.1.type ≠ .king) && decide (a.1.color = .white)) =
        (A.filter fun pp => decide (pp.1.type ≠ .king)).filter
          fun a => decide (a.1.color = .white) := by
      rw [List.filter_filter]
      exact List.filter_congr fun x _ => Bool.and_comm _ _
    have hb : (A.filter fun a =>
          decide (a.1.type ≠ .king) && decide (a.1.color = .black)) =
        (A.filter fun pp => decide (pp.1.type ≠ .king)).filter
          fun a => !decide (a.1.color = .white) := by
      rw [List.filter_filter]
      refine List.filter_congr fun x _ => ?_
      cases hx : x.1.color <;> simp [hx, Bool.and_comm]
    rw [hw, hb]
    exact List.filter_append_perm _ _
  unfold GameEndDetection.isInsufficientMaterial amendedInsufficientMaterial
  simp only [hcolor]
  exact insufficient_cases (hsplit (allPiecesWithPos b))

/-! ### Claim C9: infrastructure. The persistent attack cache is keyed
by strings; transparency of the cache rests on the fact that equal keys
force attack-equivalent boards. The lemmas below recover the board's
piece placement (up to hasMoved, which the attack computation never
reads) from the key. -/

theorem char_toNat_ofNat_small (n : Nat) (h : n < 55296) : (Char.ofNat n).toNat = n := by
  have hv : n.isValidChar := Or.inl h
  unfold Char.ofNat
  rw [dif_pos hv]
  unfold Char.ofNatAux Char.toNat
  simp [UInt32.toNat, BitVec.toNat_ofNatLt]

theorem digitChar_toNat (n : Nat) (h : n < 10) : (digitChar n).toNat = 48 + n :=
  char_toNat_ofNat_small _ (by omega)

theorem char_eq_of_toNat {c1 c2 : Char} (h : c1.toNat = c2.toNat) : c1 = c2 := by
  cases c1; cases c2
  simp only [Char.toNat] at h
  congr 1
  exact UInt32.ext h

theorem digitChar_inj {m n : Nat} (hm : m < 10) (hn : n < 10)
    (h : digitChar m = digitChar n) : m = n := by
  have := congrArg Char.toNat h
  rw [digitChar_toNat m hm, digitChar_toNat n hn] at this
  omega

theorem natChars_lt10 (n : Nat) (h : n < 10) : natChars n = [digitChar n] := by
  unfold natChars natCharsAux
  rw [if_pos h]

/-- Characters of fueled decimal printing are decimal digits. -/
theorem natCharsAux_digit : ∀ (fuel n : Nat), ∀ ch ∈ natCharsAux fuel n,
    48 ≤ ch.toNat ∧ ch.toNat ≤ 57 := by
  intro fuel
  induction fuel with
  | zero => intro n ch h; simp [natCharsAux] at h
  | succ f ih =>
    intro n ch h
    unfold natCharsAux at h
    by_cases hn : n < 10
    · rw [if_pos hn] at h
      simp only [List.mem_singleton] at h
      subst h
      rw [digitChar_toNat n hn]
      omega
    · rw [if_neg hn] at h
      rcases List.mem_append.mp h with h1 | h1
      · exact ih _ ch h1
      · simp only [List.mem_singleton] at h1
        subst h1
        rw [digitChar_toNat _ (Nat.mod_lt _ (by omega))]
        have := Nat.mod_lt n (show 0 < 10 by omega)
        omega

theorem natChars_digit (n : Nat) : ∀ ch ∈ natChars n, 48 ≤ ch.toNat ∧ ch.toNat ≤ 57 :=
  natCharsAux_digit (n + 1) n

/-- The twelve piece letters. -/
def pieceLetters : List Char :=
  ['P', 'N', 'B', 'R', 'Q', 'K', 'p', 'n', 'b', 'r', 'q', 'k']

theorem pieceChar_mem (p : Piece) : pieceChar p ∈ pieceLetters := by
  unfold pieceChar pieceCharUpper pieceCharLower pieceLetters
  cases hc : p.color <;> cases ht : p.type <;> simp

/-- Characters of a row's FEN: digits or piece letters. -/
theorem rowFenAux_chars : ∀ (row : List (Option Piece)) (e : Nat), ∀ ch ∈ rowFenAux row e,
    (48 ≤ ch.toNat ∧ ch.toNat ≤ 57) ∨ ch ∈ pieceLetters := by
  intro row
  induction row with
  | nil =>
    intro e ch h
    unfold rowFenAux at h
    by_cases he : e > 0
    · rw [if_pos he] at h
      exact Or.inl (natChars_digit e ch h)
    · rw [if_neg he] at h
      simp at h
  | cons hd tl ih =>
    intro e ch h
    unfold rowFenAux at h
    cases hd with
    | none => exact ih (e + 1) ch h
    | some p =>
      rcases List.mem_append.mp h with h1 | h1
      · by_cases he : e > 0
        · rw [if_pos he] at h1
          exact Or.inl (natChars_digit e ch h1)
        · rw [if_neg he] at h1
          simp at h1
      · rcases List.mem_cons.mp h1 with h2 | h2
        · subst h2
          exact Or.inr (pieceChar_mem p)
        · exact ih 0 ch h2

theorem joinFen_chars : ∀ (L : List (List Char)), ∀ ch ∈ joinFen L,
    ch = '/' ∨ ∃ r ∈ L, ch ∈ r := by
  intro L
  induction L with
  | nil => intro ch h; simp [joinFen] at h
  | cons hd tl ih =>
    intro ch h
    cases tl with
    | nil =>
      exact Or.inr ⟨hd, by simp, h⟩
    | cons hd2 tl2 =>
      unfold joinFen at h
      rcases List.mem_append.mp h with h1 | h1
      · exact Or.inr ⟨hd, by simp, h1⟩
      · rcases List.mem_cons.mp h1 with h2 | h2
        · exact Or.inl h2
        · rcases ih ch h2 with h3 | ⟨r, hr, hcr⟩
          · exact Or.inl h3
          · exact Or.inr ⟨r, by simp [hr], hcr⟩

/-- Splitting at a separator character that occurs in neither prefix is
unambiguous. -/
theorem append_sep_inj {sep : Char} :
    ∀ {xs xs' ys ys' : List Char}, sep ∉ xs → sep ∉ xs' →
      xs ++ sep :: ys = xs' ++ sep :: ys' → xs = xs' ∧ ys = ys' := by
  intro xs
  induction xs with
  | nil =>
    intro xs' ys ys' _ hx' h
    cases xs' with
    | nil => simpa using h
    | cons a as =>
      simp only [List.nil_append, List.cons_append, List.cons.injEq] at h
      exact absurd (h.1 ▸ List.mem_cons_self a as) hx'
  | cons a as ih =>
    intro xs' ys ys' hx hx' h
    cases xs' with
    | nil =>
      simp only [List.cons_append, List.nil_append, List.cons.injEq] at h
      exact absurd (h.1.symm ▸ List.mem_cons_self a as) hx
    | cons a' as' =>
      simp only [List.cons_append, List.cons.injEq] at h
      obtain ⟨haa, htail⟩ := h
      have := ih (fun hm => hx (List.mem_cons_of_mem a hm))
        (fun hm => hx' (List.mem_cons_of_mem a' hm)) htail
      exact ⟨by rw [haa, this.1], this.2⟩

theorem placement_no_colon (b : BoardState) : ':' ∉ FenGenerator.getPiecePlacementFen b := by
  intro hmem
  unfold FenGenerator.getPiecePlacementFen at hmem
  rcases joinFen_chars _ _ hmem with h | ⟨r, hr, hcr⟩
  · exact absurd h (by decide)
  · simp only [List.mem_map] at hr
    obtain ⟨n, -, hn⟩ := hr
    rcases rowFenAux_chars _ _ _ (hn ▸ hcr) with h | h
    · have : (':' : Char).toNat = 58 := by decide
      omega
    · exact absurd h (by decide)

theorem placement_no_space (b : BoardState) : ' ' ∉ FenGenerator.getPiecePlacementFen b := by
  intro hmem
  unfold FenGenerator.getPiecePlacementFen at hmem
  rcases joinFen_chars _ _ hmem with h | ⟨r, hr, hcr⟩
  · exact absurd h (by decide)
  · simp only [List.mem_map] at hr
    obtain ⟨n, -, hn⟩ := hr
    rcases rowFenAux_chars _ _ _ (hn ▸ hcr) with h | h
    · have : (' ' : Char).toNat = 32 := by decide
      omega
    · exact absurd h (by decide)

theorem rowFen_no_slash (l : List (Option Piece)) (e : Nat) : '/' ∉ rowFenAux l e := by
  intro hmem
  rcases rowFenAux_chars _ _ _ hmem with h | h
  · have : ('/' : Char).toNat = 47 := by decide
    omega
  · exact absurd h (by decide)

/-- A game state whose recorded last move (if any) stays on the board;
every state a real game produces satisfies this. -/
def GameStateCoordsOK (gs : GameState) : Prop :=
  match gs.lastMove with
  | none => True
  | some mv =>
    0 ≤ mv.from_.row ∧ mv.from_.row < 8 ∧ 0 ≤ mv.from_.col ∧ mv.from_.col < 8 ∧
    0 ≤ mv.to_.row ∧ mv.to_.row < 8 ∧ 0 ≤ mv.to_.col ∧ mv.to_.col < 8

/-- No character of a position key is a colon: the placement has only
digits, letters and '/', and the color, castling and en-passant fields
draw from fixed colon-free alphabets (the en-passant file letter is
a–h because the recorded move is on the board). -/
theorem castlingFen_no_colon (b : BoardState) : ':' ∉ FenGenerator.getCastlingFen b := by
  intro h1
  unfold FenGenerator.getCastlingFen at h1
  have hin : ∀ (flag : Bool) (ch : Char), ':' ∈ (if flag then [ch] else []) → ':' = ch := by
    intro flag ch hm
    cases flag
    · simp at hm
    · simpa using hm
  by_cases hfen : ((if castleFlag (boardGet b 0 4) (boardGet b 0 7) then ['K'] else []) ++
      (if castleFlag (boardGet b 0 4) (boardGet b 0 0) then ['Q'] else []) ++
      (if castleFlag (boardGet b 7 4) (boardGet b 7 7) then ['k'] else []) ++
      (if castleFlag (boardGet b 7 4) (boardGet b 7 0) then ['q'] else [])) = []
  · rw [if_pos hfen] at h1
    exact absurd h1 (by decide)
  · rw [if_neg hfen] at h1
    rcases List.mem_append.mp h1 with h2 | h2
    rotate_left
    · exact absurd (hin _ _ h2) (by decide)
    rcases List.mem_append.mp h2 with h3 | h3
    rotate_left
    · exact absurd (hin _ _ h3) (by decide)
    rcases List.mem_append.mp h3 with h4 | h4
    · exact absurd (hin _ _ h4) (by decide)
    · exact absurd (hin _ _ h4) (by decide)

theorem enPassantFen_no_colon {gs : GameState} (hgs : GameStateCoordsOK gs) :
    ':' ∉ FenGenerator.getEnPassantFen gs := by
  intro h2
  unfold FenGenerator.getEnPassantFen at h2
  unfold GameStateCoordsOK at hgs
  cases hlm : gs.lastMove with
  | none =>
    simp only [hlm] at h2
    exact absurd h2 (by decide)
  | some mv =>
    simp only [hlm] at h2 hgs
    by_cases hdouble : ¬(mv.piece.type = .pawn ∧ (mv.to_.row - mv.from_.row).natAbs = 2)
    · rw [if_pos hdouble] at h2
      exact absurd h2 (by decide)
    · rw [if_neg hdouble] at h2
      simp only [List.mem_cons, List.not_mem_nil, or_false] at h2
      rcases h2 with h3 | h3
      · have hcol : (fileChar mv.from_.col).toNat = (97 + mv.from_.col).toNat := by
          unfold fileChar
          exact char_toNat_ofNat_small _ (by omega)
        have hcolon : (':' : Char).toNat = 58 := by decide
        rw [h3] at hcolon
        omega
      · cases hcw : mv.piece.color <;> rw [hcw] at h3 <;> exact absurd h3 (by decide)

/-- No character of a position key is a colon: the placement has only
digits, letters and '/', and the color, castling and en-passant fields
draw from fixed colon-free alphabets (the en-passant file letter is
a-h because the recorded move is on the board). -/
theorem positionKey_no_colon {b : BoardState} {gs : GameState}
    (hgs : GameStateCoordsOK gs) : ':' ∉ FenGenerator.getPositionKey b gs := by
  intro hmem
  unfold FenGenerator.getPositionKey at hmem
  rcases List.mem_append.mp hmem with h | h
  · rcases List.mem_append.mp h with h0 | h0
    · exact placement_no_colon b h0
    · rcases List.mem_cons.mp h0 with h1 | h1
      · exact absurd h1 (by decide)
      rcases List.mem_cons.mp h1 with h2 | h2
      · cases hc : gs.currentTurn <;> rw [hc] at h2 <;> exact absurd h2 (by decide)
      rcases List.mem_cons.mp h2 with h3 | h3
      · exact absurd h3 (by decide)
      · exact castlingFen_no_colon b h3
  · rcases List.mem_cons.mp h with h1 | h1
    · exact absurd h1 (by decide)
    · exact enPassantFen_no_colon hgs h1

/-- Inverse of `pieceChar`. -/
def decodePieceChar (ch : Char) : Option (PieceType × PieceColor) :=
  if ch = 'P' then some (.pawn, .white)
  else if ch = 'N' then some (.knight, .white)
  else if ch = 'B' then some (.bishop, .white)
  else if ch = 'R' then some (.rook, .white)
  else if ch = 'Q' then some (.queen, .white)
  else if ch = 'K' then some (.king, .white)
  else if ch = 'p' then some (.pawn, .black)
  else if ch = 'n' then some (.knight, .black)
  else if ch = 'b' then some (.bishop, .black)
  else if ch = 'r' then some (.rook, .black)
  else if ch = 'q' then some (.queen, .black)
  else if ch = 'k' then some (.king, .black)
  else none

/-- Decimal digit test on characters. -/
def isDigitCh (ch : Char) : Bool := 48 ≤ ch.toNat && ch.toNat ≤ 57

/-- Inverse of the row FEN builder: digits expand to empty squares,
letters to pieces (the hasMoved flag is not recoverable and is not part
of the decoded placement). -/
def decodeRow : List Char → List (Option (PieceType × PieceColor))
  | [] => []
  | ch :: rest =>
    if isDigitCh ch then List.replicate (ch.toNat - 48) none ++ decodeRow rest
    else
      match decodePieceChar ch with
      | some tc => some tc :: decodeRow rest
      | none => decodeRow rest

theorem decodePieceChar_pieceChar (p : Piece) :
    decodePieceChar (pieceChar p) = some (p.type, p.color) := by
  obtain ⟨t, c, hm⟩ := p
  cases t <;> cases c <;> rfl

theorem pieceChar_not_digit (p : Piece) : isDigitCh (pieceChar p) = false := by
  obtain ⟨t, c, hm⟩ := p
  cases t <;> cases c <;> rfl

/-- Decoding a row FEN returns the row's piece kinds and colors (with
the running empty counter prepended), provided counter plus row length
stay within one rank. -/
theorem decodeRow_rowFenAux : ∀ (row : List (Option Piece)) (e : Nat),
    e + row.length ≤ 8 →
    decodeRow (rowFenAux row e) =
      List.replicate e none ++ row.map (Option.map fun p => (p.type, p.color)) := by
  intro row
  induction row with
  | nil =>
    intro e he
    unfold rowFenAux
    by_cases hegt : e > 0
    · rw [if_pos hegt, natChars_lt10 e (by omega)]
      unfold decodeRow
      rw [if_pos (by simp [isDigitCh, digitChar_toNat e (by omega)]; omega)]
      rw [digitChar_toNat e (by omega)]
      simp [decodeRow]
    · rw [if_neg hegt]
      simp only [decodeRow, List.map_nil, List.append_nil]
      have : e = 0 := by omega
      rw [this]
      rfl
  | cons hd tl ih =>
    intro e he
    simp only [List.length_cons] at he
    cases hd with
    | none =>
      show decodeRow (rowFenAux tl (e + 1)) = _
      rw [ih (e + 1) (by omega)]
      rw [List.replicate_succ' e]
      simp
    | some p =>
      show decodeRow ((if e > 0 then natChars e else []) ++ pieceChar p :: rowFenAux tl 0) = _
      by_cases hegt : e > 0
      · rw [if_pos hegt, natChars_lt10 e (by omega)]
        show decodeRow (digitChar e :: (pieceChar p :: rowFenAux tl 0)) = _
        unfold decodeRow
        rw [if_pos (by simp [isDigitCh, digitChar_toNat e (by omega)]; omega)]
        rw [digitChar_toNat e (by omega)]
        unfold decodeRow
        rw [if_neg (by simp [pieceChar_not_digit p]), decodePieceChar_pieceChar p]
        rw [ih 0 (by omega)]
        simp
      · rw [if_neg hegt]
        have he0 : e = 0 := by omega
        subst he0
        show decodeRow (pieceChar p :: rowFenAux tl 0) = _
        unfold decodeRow
        rw [if_neg (by simp [pieceChar_not_digit p]), decodePieceChar_pieceChar p]
        rw [ih 0 (by omega)]
        simp

theorem joinFen_inj : ∀ (L1 L2 : List (List Char)), L1.length = L2.length →
    (∀ r ∈ L1, '/' ∉ r) → (∀ r ∈ L2, '/' ∉ r) →
    joinFen L1 = joinFen L2 → L1 = L2 := by
  intro L1
  induction L1 with
  | nil =>
    intro L2 hlen _ _ _
    cases L2 with
    | nil => rfl
    | cons r' rest' => simp at hlen
  | cons r rest ih =>
    intro L2 hlen hf1 hf2 h
    cases L2 with
    | nil => simp at hlen
    | cons r' rest' =>
      cases rest with
      | nil =>
        cases rest' with
        | nil =>
          show [r] = [r']
          rw [show r = r' from h]
        | cons s' t' => simp at hlen
      | cons s t =>
        cases rest' with
        | nil => simp at hlen
        | cons s' t' =>
          have h' : r ++ '/' :: joinFen (s :: t) = r' ++ '/' :: joinFen (s' :: t') := h
          obtain ⟨hr, htail⟩ :=
            append_sep_inj (hf1 r (by simp)) (hf2 r' (by simp)) h'
          have hrest := ih (s' :: t') (by simpa using hlen)
            (fun x hx => hf1 x (List.mem_cons_of_mem r hx))
            (fun x hx => hf2 x (List.mem_cons_of_mem r' hx)) htail
          rw [hr, hrest]

/-- The decoded placement of a board's square, as the FEN sees it:
kind and color only. -/
def typeColorAt (b : BoardState) (r c : Int) : Option (PieceType × PieceColor) :=
  (boardGet b r c).map fun p => (p.type, p.color)

theorem row8_length (l : List (Option Piece)) : (row8 l).length = 8 := by
  unfold row8
  rw [List.length_take, List.length_append, List.length_replicate]
  omega

theorem getD_map_optmap {α β : Type} (f : α → β) (L : List (Option α)) (i : Nat) :
    (L.map (Option.map f)).getD i none = Option.map f (L.getD i none) := by
  rw [List.getD_eq_getElem?_getD, List.getD_eq_getElem?_getD, List.getElem?_map]
  cases h : L[i]? <;> simp

theorem row8_getD (l : List (Option Piece)) (c : Nat) (hc : c < 8) :
    (row8 l).getD c none = l.getD c none := by
  unfold row8
  rw [List.getD_eq_getElem?_getD, List.getElem?_take_of_lt hc]
  by_cases hcl : c < l.length
  · rw [List.getElem?_append_left hcl, ← List.getD_eq_getElem?_getD]
  · rw [List.getElem?_append_right (by omega)]
    rw [getD_oob l c none (by omega)]
    have hrep : (List.replicate 8 (none : Option Piece))[c - l.length]? = some none := by
      rw [List.getElem?_replicate]
      rw [if_pos (by omega)]
    rw [hrep]
    rfl

/-- Equal placement FENs force equal piece kinds and colors on every
square of two well-formed boards. -/
theorem typeColorAt_of_placement {b1 b2 : BoardState}
    (wf1 : BoardWF b1) (wf2 : BoardWF b2)
    (h : FenGenerator.getPiecePlacementFen b1 = FenGenerator.getPiecePlacementFen b2) :
    ∀ r c : Int, typeColorAt b1 r c = typeColorAt b2 r c := by
  have hrows : ∀ n : Nat, n < 8 →
      (row8 (b1.getD n [])).map (Option.map fun p => (p.type, p.color)) =
      (row8 (b2.getD n [])).map (Option.map fun p => (p.type, p.color)) := by
    have hj := joinFen_inj _ _ (by simp) (fun x hx => by
        simp only [List.mem_map] at hx
        obtain ⟨n, -, hn⟩ := hx
        exact hn ▸ rowFen_no_slash _ 0)
      (fun x hx => by
        simp only [List.mem_map] at hx
        obtain ⟨n, -, hn⟩ := hx
        exact hn ▸ rowFen_no_slash _ 0) h
    simp only [List.map_cons, List.map_nil, List.cons.injEq, and_true] at hj
    obtain ⟨e7, e6, e5, e4, e3, e2, e1, e0⟩ := hj
    have hdec : ∀ (x y : List (Option Piece)), rowFenAux (row8 x) 0 = rowFenAux (row8 y) 0 →
        (row8 x).map (Option.map fun p => (p.type, p.color)) =
        (row8 y).map (Option.map fun p => (p.type, p.color)) := by
      intro x y hxy
      have d1 := decodeRow_rowFenAux (row8 x) 0 (by rw [row8_length])
      have d2 := decodeRow_rowFenAux (row8 y) 0 (by rw [row8_length])
      simp only [List.replicate, List.nil_append] at d1 d2
      rw [← d1, ← d2, hxy]
    intro n hn
    interval_cases n
    · exact hdec _ _ e0
    · exact hdec _ _ e1
    · exact hdec _ _ e2
    · exact hdec _ _ e3
    · exact hdec _ _ e4
    · exact hdec _ _ e5
    · exact hdec _ _ e6
    · exact hdec _ _ e7
  intro r c
  unfold typeColorAt boardGet
  by_cases hg : 0 ≤ r ∧ 0 ≤ c
  · rw [if_pos hg, if_pos hg]
    by_cases hr8 : r < 8
    · by_cases hc8 : c < 8
      · have hcell := congrArg (fun l => l.getD c.toNat none) (hrows r.toNat (by omega))
        simp only at hcell
        rw [getD_map_optmap, getD_map_optmap,
          row8_getD _ _ (by omega), row8_getD _ _ (by omega)] at hcell
        exact hcell
      · rw [getD_oob _ _ _ (by rw [boardWF_row wf1 (by omega)]; omega),
          getD_oob _ _ _ (by rw [boardWF_row wf2 (by omega)]; omega)]
    · rw [getD_oob b1 r.toNat [] (by rw [wf1.1]; omega),
        getD_oob b2 r.toNat [] (by rw [wf2.1]; omega)]
  · rw [if_neg hg, if_neg hg]

theorem any_congr {α : Type} {f g : α → Bool} : ∀ {l : List α},
    (∀ x ∈ l, f x = g x) → l.any f = l.any g := by
  intro l
  induction l with
  | nil => intro _; rfl
  | cons hd tl ih =>
    intro h
    simp only [List.any_cons]
    rw [h hd (by simp), ih fun x hx => h x (List.mem_cons_of_mem hd hx)]

theorem isSome_of_tcEq {b1 b2 : BoardState}
    (h : ∀ r c : Int, typeColorAt b1 r c = typeColorAt b2 r c) :
    ∀ r c : Int, (boardGet b1 r c).isSome = (boardGet b2 r c).isSome := by
  intro r c
  have hrc := h r c
  unfold typeColorAt at hrc
  cases h1 : boardGet b1 r c <;> cases h2 : boardGet b2 r c <;> simp_all

theorem isPathClearAux_congr {b1 b2 : BoardState}
    (h : ∀ r c : Int, typeColorAt b1 r c = typeColorAt b2 r c)
    (tr tc dr dc : Int) : ∀ (fuel : Nat) (r c : Int),
    isPathClearAux b1 tr tc dr dc r c fuel = isPathClearAux b2 tr tc dr dc r c fuel := by
  intro fuel
  induction fuel with
  | zero => intro r c; rfl
  | succ f ih =>
    intro r c
    unfold isPathClearAux
    rw [isSome_of_tcEq h r c, ih]

theorem isPathClear_congr {b1 b2 : BoardState}
    (h : ∀ r c : Int, typeColorAt b1 r c = typeColorAt b2 r c)
    (from_ to_ : BoardCoord) : isPathClear b1 from_ to_ = isPathClear b2 from_ to_ := by
  unfold isPathClear
  rw [isPathClearAux_congr h]

/-- Validator geometry depends only on piece kinds, colors and square
occupancy — never on hasMoved. -/
theorem validator_congr {b1 b2 : BoardState}
    (h : ∀ r c : Int, typeColorAt b1 r c = typeColorAt b2 r c)
    (p1 p2 : Piece) (ht : p1.type = p2.type) (hc : p1.color = p2.color)
    (from_ to_ : BoardCoord) :
    ValidatorFactory.isValidMove p1 b1 from_ to_ =
    ValidatorFactory.isValidMove p2 b2 from_ to_ := by
  have hmidN : ∀ r c : Int, (boardGet b1 r c).isNone = (boardGet b2 r c).isNone := by
    intro r c
    have hs := isSome_of_tcEq h r c
    cases hh1 : boardGet b1 r c <;> cases hh2 : boardGet b2 r c <;> simp_all
  obtain ⟨t1, c1, m1⟩ := p1
  obtain ⟨t2, c2, m2⟩ := p2
  simp only at ht hc
  subst ht
  subst hc
  cases t1
  case knight => rfl
  case king => rfl
  case bishop =>
    show BishopValidator.isValidMove b1 from_ to_ = BishopValidator.isValidMove b2 from_ to_
    unfold BishopValidator.isValidMove
    rw [isPathClear_congr h]
  case rook =>
    show RookValidator.isValidMove b1 from_ to_ = RookValidator.isValidMove b2 from_ to_
    unfold RookValidator.isValidMove
    rw [isPathClear_congr h]
  case queen =>
    show QueenValidator.isValidMove b1 from_ to_ = QueenValidator.isValidMove b2 from_ to_
    unfold QueenValidator.isValidMove BishopValidator.isValidMove RookValidator.isValidMove
    rw [isPathClear_congr h]
  case pawn =>
    show PawnValidator.isValidMove c1 b1 from_ to_ = PawnValidator.isValidMove c1 b2 from_ to_
    simp only [PawnValidator.isValidMove, bAt]
    have hdest := h to_.row to_.col
    unfold typeColorAt at hdest
    cases h1 : boardGet b1 to_.row to_.col <;> cases h2 : boardGet b2 to_.row to_.col <;>
      rw [h1, h2] at hdest
    · rw [hmidN]
    · exact absurd hdest (by simp)
    · exact absurd hdest (by simp)
    · rename_i d1 d2
      have hcol : d1.color = d2.color := by
        have hsnd := congrArg (Option.map Prod.snd) hdest
        simpa using hsnd
      simp only [hmidN, hcol, Option.isNone_some]

/-- The per-piece attack test reads only kind, color and occupancy. -/
theorem pieceAttacks_congr {b1 b2 : BoardState}
    (h : ∀ r c : Int, typeColorAt b1 r c = typeColorAt b2 r c)
    (p1 p2 : Piece) (ht : p1.type = p2.type) (hc : p1.color = p2.color)
    (rc pos : BoardCoord) (color : PieceColor) :
    Game.pieceAttacks b1 p1 rc pos color = Game.pieceAttacks b2 p2 rc pos color := by
  unfold Game.pieceAttacks
  rw [← ht, ← hc]
  by_cases hcc : p1.color ≠ color
  · rw [if_pos hcc, if_pos hcc]
  · rw [if_neg hcc, if_neg hcc]
    by_cases hpp : p1.type = PieceType.pawn
    · rw [if_pos hpp, if_pos hpp]
    · rw [if_neg hpp, if_neg hpp]
      exact validator_congr h p1 p2 ht hc rc pos

/-- The attack computation reads only piece kinds, colors and
occupancy, so boards with equal decoded placements agree on it. -/
theorem calculate_congr {b1 b2 : BoardState}
    (h : ∀ r c : Int, typeColorAt b1 r c = typeColorAt b2 r c)
    (pos : BoardCoord) (color : PieceColor) :
    Game.calculateIsSquareAttacked b1 pos color =
    Game.calculateIsSquareAttacked b2 pos color := by
  unfold Game.calculateIsSquareAttacked
  apply any_congr
  intro rc _
  have hrc := h rc.row rc.col
  unfold typeColorAt at hrc
  cases h1 : boardGet b1 rc.row rc.col <;> cases h2 : boardGet b2 rc.row rc.col <;>
    rw [h1, h2] at hrc
  · exact absurd hrc (by simp)
  · exact absurd hrc (by simp)
  · rename_i p1 p2
    simp only [Option.map_some', Option.some.injEq, Prod.mk.injEq] at hrc
    show Game.pieceAttacks b1 p1 rc pos color = Game.pieceAttacks b2 p2 rc pos color
    exact pieceAttacks_congr h p1 p2 hrc.1 hrc.2 rc pos color

/-- On-board coordinates. -/
def InRangeCoord (p : BoardCoord) : Prop :=
  0 ≤ p.row ∧ p.row < 8 ∧ 0 ≤ p.col ∧ p.col < 8

theorem intChars_inRange {n : Int} (h0 : 0 ≤ n) (h8 : n < 8) :
    intChars n = [digitChar n.toNat] := by
  unfold intChars
  rw [if_neg (by omega), natChars_lt10 _ (by omega)]

theorem colorChars_inj {c1 c2 : PieceColor} (h : colorChars c1 = colorChars c2) :
    c1 = c2 := by
  cases c1 <;> cases c2 <;> simp_all [colorChars]

/-- Equal attack-cache keys force equal squares and colors and equal
position keys. -/
theorem attackCacheKey_parts {b1 b2 : BoardState} {gs1 gs2 : GameState}
    {p1 p2 : BoardCoord} {c1 c2 : PieceColor}
    (hgs1 : GameStateCoordsOK gs1) (hgs2 : GameStateCoordsOK gs2)
    (hp1 : InRangeCoord p1) (hp2 : InRangeCoord p2)
    (hkey : Game.attackCacheKey b1 gs1 p1 c1 = Game.attackCacheKey b2 gs2 p2 c2) :
    FenGenerator.getPositionKey b1 gs1 = FenGenerator.getPositionKey b2 gs2 ∧
    p1 = p2 ∧ c1 = c2 := by
  obtain ⟨hr01, hr81, hc01, hc81⟩ := hp1
  obtain ⟨hr02, hr82, hc02, hc82⟩ := hp2
  have hnorm : ∀ (b : BoardState) (gs : GameState) (p : BoardCoord) (c : PieceColor),
      0 ≤ p.row → p.row < 8 → 0 ≤ p.col → p.col < 8 →
      Game.attackCacheKey b gs p c =
        FenGenerator.getPositionKey b gs ++
          ':' :: (digitChar p.row.toNat ::
            ',' :: (digitChar p.col.toNat :: ':' :: colorChars c)) := by
    intro b gs p c h1 h2 h3 h4
    unfold Game.attackCacheKey
    rw [intChars_inRange h1 h2, intChars_inRange h3 h4]
    simp [List.append_assoc]
  rw [hnorm b1 gs1 p1 c1 hr01 hr81 hc01 hc81,
    hnorm b2 gs2 p2 c2 hr02 hr82 hc02 hc82] at hkey
  obtain ⟨hpos, hrest⟩ :=
    append_sep_inj (positionKey_no_colon hgs1) (positionKey_no_colon hgs2) hkey
  simp only [List.cons.injEq] at hrest
  obtain ⟨hdr, -, hdc, -, hcolor⟩ := hrest
  have hrow : p1.row = p2.row := by
    have := digitChar_inj (by omega) (by omega) hdr
    omega
  have hcol : p1.col = p2.col := by
    have := digitChar_inj (by omega) (by omega) hdc
    omega
  refine ⟨hpos, ?_, colorChars_inj hcolor⟩
  cases p1
  cases p2
  simp_all

/-- Equal position keys force equal placement FENs. -/
theorem positionKey_placement {b1 b2 : BoardState} {gs1 gs2 : GameState}
    (h : FenGenerator.getPositionKey b1 gs1 = FenGenerator.getPositionKey b2 gs2) :
    FenGenerator.getPiecePlacementFen b1 = FenGenerator.getPiecePlacementFen b2 := by
  have hnorm : ∀ (b : BoardState) (gs : GameState),
      FenGenerator.getPositionKey b gs =
        FenGenerator.getPiecePlacementFen b ++
          ' ' :: (colorChar gs.currentTurn :: ' ' ::
            (FenGenerator.getCastlingFen b ++ ' ' :: FenGenerator.getEnPassantFen gs)) := by
    intro b gs
    unfold FenGenerator.getPositionKey
    simp [List.append_assoc]
  rw [hnorm, hnorm] at h
  exact (append_sep_inj (placement_no_space b1) (placement_no_space b2) h).1

theorem mapGet_mem {α β : Type} [DecidableEq α] {m : List (α × β)} {k : α} {v : β}
    (h : mapGet m k = some v) : (k, v) ∈ m := by
  unfold mapGet at h
  cases hf : m.find? (fun e => e.1 = k) with
  | none => rw [hf] at h; exact Option.noConfusion h
  | some e =>
    rw [hf] at h
    simp only [Option.map_some', Option.some.injEq] at h
    have hk := List.find?_some hf
    simp only [decide_eq_true_eq] at hk
    have hmem := List.mem_of_find?_eq_some hf
    have he : e = (k, v) := by
      cases e
      simp_all
    exact he ▸ hmem

theorem mapSet_mem {α β : Type} [DecidableEq α] {k : α} {v : β} :
    ∀ {m : List (α × β)} {e : α × β}, e ∈ mapSet m k v → e ∈ m ∨ e = (k, v) := by
  intro m
  induction m with
  | nil =>
    intro e h
    simp only [mapSet, List.mem_singleton] at h
    exact Or.inr h
  | cons hd tl ih =>
    intro e h
    unfold mapSet at h
    by_cases hk : hd.1 = k
    · rw [if_pos hk] at h
      rcases List.mem_cons.mp h with h1 | h1
      · exact Or.inr h1
      · exact Or.inl (List.mem_cons_of_mem hd h1)
    · rw [if_neg hk] at h
      rcases List.mem_cons.mp h with h1 | h1
      · exact Or.inl (h1 ▸ List.mem_cons_self hd tl)
      · rcases ih h1 with h2 | h2
        · exact Or.inl (List.mem_cons_of_mem hd h2)
        · exact Or.inr h2

/-- The invariant of the persistent attack cache: every entry is the
direct attack computation for some well-formed board and on-board
square, stored under that query's key. -/
def AttackCacheConsistent (cache : AttackCache) : Prop :=
  ∀ e ∈ cache, ∃ (b : BoardState) (gs : GameState) (pos : BoardCoord) (c : PieceColor),
    BoardWF b ∧ GameStateCoordsOK gs ∧ InRangeCoord pos ∧
    e.1 = Game.attackCacheKey b gs pos c ∧
    e.2 = Game.calculateIsSquareAttacked b pos c

set_option maxHeartbeats 1000000 in
/-- On a consistent cache, Game.isSquareAttacked answers exactly like
the uncached computation, and the cache it returns is consistent
again. -/
theorem isSquareAttacked_correct {cache : AttackCache} {b : BoardState}
    {gs : GameState} {pos : BoardCoord} {c : PieceColor}
    (hc : AttackCacheConsistent cache) (wf : BoardWF b)
    (hgs : GameStateCoordsOK gs) (hp : InRangeCoord pos) :
    (Game.isSquareAttacked cache b pos c gs).1 = Game.calculateIsSquareAttacked b pos c ∧
    AttackCacheConsistent (Game.isSquareAttacked cache b pos c gs).2 := by
  have hzeta : Game.isSquareAttacked cache b pos c gs =
      match mapGet cache (Game.attackCacheKey b gs pos c) with
      | some hit => (hit, cache)
      | none => (Game.calculateIsSquareAttacked b pos c,
          mapSet cache (Game.attackCacheKey b gs pos c)
            (Game.calculateIsSquareAttacked b pos c)) := rfl
  rw [hzeta]
  cases hget : mapGet cache (Game.attackCacheKey b gs pos c) with
  | none =>
    refine ⟨rfl, ?_⟩
    intro e he
    rcases mapSet_mem he with h1 | h1
    · exact hc e h1
    · exact ⟨b, gs, pos, c, wf, hgs, hp, by rw [h1], by rw [h1]⟩
  | some hit =>
    refine ⟨?_, hc⟩
    obtain ⟨b', gs', pos', c', wf', hgs', hp', hkey, hval⟩ := hc _ (mapGet_mem hget)
    simp only at hkey hval
    obtain ⟨hposkey, hpos, hcol⟩ := attackCacheKey_parts hgs hgs' hp hp' hkey
    show hit = Game.calculateIsSquareAttacked b pos c
    rw [hval, ← hpos, ← hcol]
    exact calculate_congr
      (typeColorAt_of_placement wf' wf (positionKey_placement hposkey.symm)) pos c

/-- Caches reachable by sequences of isSquareAttacked queries over
well-formed boards and on-board squares in one game. -/
inductive AttackCacheReachable : AttackCache → Prop where
  | nil : AttackCacheReachable []
  | step {cache : AttackCache} (b : BoardState) (gs : GameState) (pos : BoardCoord)
      (c : PieceColor) :
      AttackCacheReachable cache → BoardWF b → GameStateCoordsOK gs → InRangeCoord pos →
      AttackCacheReachable (Game.isSquareAttacked cache b pos c gs).2

theorem reachable_consistent {cache : AttackCache}
    (h : AttackCacheReachable cache) : AttackCacheConsistent cache := by
  induction h with
  | nil => intro e he; simp at he
  | step b gs pos c _ wf hgs hp ih =>
    exact (isSquareAttacked_correct ih wf hgs hp).2

/-- C9: observational transparency of the persistent attack cache. For
every cache accumulated by earlier Game.isSquareAttacked queries in the
same game (well-formed boards, on-board squares, game states whose
recorded last move is on the board), a query for any board, square and
attacking color returns exactly what the direct uncached computation
_calculateIsSquareAttacked returns on that board. -/
theorem c9_attack_cache_transparent (cache : AttackCache) (b : BoardState)
    (gs : GameState) (pos : BoardCoord) (c : PieceColor)
    (hreach : AttackCacheReachable cache) (wf : BoardWF b)
    (hgs : GameStateCoordsOK gs) (hp : InRangeCoord pos) :
    (Game.isSquareAttacked cache b pos c gs).1 =
      Game.calculateIsSquareAttacked b pos c :=
  (isSquareAttacked_correct (reachable_consistent hreach) wf hgs hp).1

/-- A cache holding the result of one earlier query (White's king
square on the initial board, queried for black attackers). -/
def c9DemoCache : AttackCache :=
  (Game.isSquareAttacked [] BoardUtils.createInitialBoard ⟨0, 4⟩ .black
    ({} : GameState)).2

/-- Witness for `c9_attack_cache_transparent`: with one entry already
accumulated, a repeat of the same query (a cache hit) still answers
exactly as the uncached computation. -/
theorem c9_attack_cache_transparent_witness :
    (Game.isSquareAttacked c9DemoCache BoardUtils.createInitialBoard ⟨0, 4⟩ .black
        ({} : GameState)).1 =
      Game.calculateIsSquareAttacked BoardUtils.createInitialBoard ⟨0, 4⟩ .black :=
  c9_attack_cache_transparent c9DemoCache BoardUtils.createInitialBoard ({} : GameState)
    ⟨0, 4⟩ .black
    (AttackCacheReachable.step BoardUtils.createInitialBoard ({} : GameState) ⟨0, 4⟩ .black
      AttackCacheReachable.nil (by decide) (by trivial) (by norm_num [InRangeCoord]))
    (by decide) (by trivial) (by norm_num [InRangeCoord])
